import Mathlib

/-!
Formal model of the matching and settlement core of the open-trading-platform
stock exchange simulator, together with proofs of the specification's claims
about it.

Conventions of the shallow embedding:
* Monetary values (`Numeric(15,2)` / `Numeric(10,2)` columns, Python `Decimal`
  at two decimal places) are integers counting cents; all arithmetic the code
  performs on them (addition, subtraction, `price * quantity`) is exact at
  that scale, so `Int` models it faithfully.
* Share quantities (`BigInteger` columns, Python `int`) are `Int`.
* Database tables are lists kept in row (insertion) order; a SQL `SELECT ...
  LIMIT 1` with `ORDER BY` is modelled as the first row under a stable sort
  of the table order, i.e. the first row attaining the minimal sort key.
* `scalar_one()` on a missing row raises in the source; fallible operations
  return `Option`/a `failure` result, `none` standing for the raised
  exception which aborts (rolls back) the enclosing submission.
* `uuid.uuid4()` and the clock are external inputs: freshly minted ids and
  timestamps are passed in as parameters (or derived deterministically where
  nothing depends on them, as for trade ids).
-/

namespace OTP

/-- Side of an order (`OrderSide` in src/app/models/order.py). -/
inductive OrderSide where
  | BUY
  | SELL
deriving DecidableEq, Repr

/-- Order type (`OrderType` in src/app/models/order.py). -/
inductive OrderType where
  | LIMIT
  | MARKET
deriving DecidableEq, Repr

/-- Order lifecycle status (`OrderStatus` in src/app/models/order.py). -/
inductive OrderStatus where
  | OPEN
  | PARTIAL
  | FILLED
  | CANCELLED
deriving DecidableEq, Repr

/-- A company (src/app/models/company.py). -/
structure Company where
  ticker : String
  name : String
  total_shares : Int
  float_shares : Int
deriving DecidableEq, Repr

/-- A trader account (src/exchange/app/models/account.py); `cash_balance`
is in cents. -/
structure Account where
  id : String
  api_key_hash : String
  cash_balance : Int
deriving DecidableEq, Repr

/-- A share-ownership row (src/exchange/app/models/holding.py), composite
key (account_id, ticker). `cost_basis` is in cents; its column default is
`Decimal("0.00")`. -/
structure Holding where
  account_id : String
  ticker : String
  quantity : Int
  cost_basis : Int
deriving DecidableEq, Repr

/-- An order row (src/app/models/order.py). `price` is `none` for MARKET
orders; `timestamp` is the submission time used for time priority. -/
structure Order where
  id : String
  account_id : String
  ticker : String
  side : OrderSide
  order_type : OrderType
  price : Option Int
  quantity : Int
  remaining_quantity : Int
  status : OrderStatus
  timestamp : Nat
deriving DecidableEq, Repr

/-- An executed-trade row (src/exchange/app/models/trade.py). The execution
timestamp is a server default and no claim depends on it, so it is omitted. -/
structure Trade where
  id : String
  ticker : String
  price : Int
  quantity : Int
  buyer_id : String
  seller_id : String
  buy_order_id : String
  sell_order_id : String
deriving DecidableEq, Repr

/-- The whole relational store: the five tables, each in row order. -/
structure ExchangeState where
  companies : List Company
  accounts : List Account
  holdings : List Holding
  orders : List Order
  trades : List Trade
deriving DecidableEq, Repr

/-- `SELECT Company WHERE ticker = tk` (primary-key lookup). -/
def findCompany (companies : List Company) (tk : String) : Option Company :=
  companies.find? (fun c => c.ticker == tk)

/-- `SELECT Account WHERE id = aid` (primary-key lookup). -/
def findAccount (accounts : List Account) (aid : String) : Option Account :=
  accounts.find? (fun a => a.id == aid)

/-- `SELECT Holding WHERE account_id = aid AND ticker = tk` (primary-key
lookup on the composite key). -/
def findHolding (holdings : List Holding) (aid tk : String) : Option Holding :=
  holdings.find? (fun h => h.account_id == aid && h.ticker == tk)

/-- Add `delta` cents to the cash balance of the first (the unique) account
row with id `aid`; `none` when no such row exists (`scalar_one` raises). -/
def creditFirst : List Account → String → Int → Option (List Account)
  | [], _, _ => none
  | a :: rest, aid, delta =>
    if a.id == aid then
      some ({ a with cash_balance := a.cash_balance + delta } :: rest)
    else
      (creditFirst rest aid delta).map (a :: ·)

/-- `_transfer_cash` in src/exchange/app/services/matching.py: debit the
buyer by `amount` cents and credit the seller by the same. `none` models the
exception raised when either account row is missing. -/
def transfer_cash (s : ExchangeState) (buyer_id seller_id : String)
    (amount : Int) : Option ExchangeState :=
  match creditFirst s.accounts buyer_id (-amount) with
  | none => none
  | some accounts1 =>
    (creditFirst accounts1 seller_id amount).map
      (fun accounts2 => { s with accounts := accounts2 })

/-- The seller half of `_transfer_shares`: subtract `q` from the quantity of
the first (the unique) holding row of (`aid`, `tk`), deleting the row when
the result is exactly 0. `none` when the row is missing (`scalar_one`
raises). `cost_basis` is not touched: the source updates only `quantity`. -/
def decSellerHolding : List Holding → String → String → Int → Option (List Holding)
  | [], _, _, _ => none
  | h :: rest, aid, tk, q =>
    if h.account_id == aid && h.ticker == tk then
      let h' : Holding := { h with quantity := h.quantity - q }
      some (if h'.quantity = 0 then rest else h' :: rest)
    else
      (decSellerHolding rest aid tk q).map (h :: ·)

/-- The buyer half of `_transfer_shares`: add `q` to the holding row of
(`aid`, `tk`), or append a fresh row when none exists. The fresh row is
created as `Holding(account_id, ticker, quantity)` in the source, so its
`cost_basis` is the column default `0.00`. -/
def incBuyerHolding : List Holding → String → String → Int → List Holding
  | [], aid, tk, q => [{ account_id := aid, ticker := tk, quantity := q, cost_basis := 0 }]
  | h :: rest, aid, tk, q =>
    if h.account_id == aid && h.ticker == tk then
      { h with quantity := h.quantity + q } :: rest
    else
      h :: incBuyerHolding rest aid tk q

/-- `_transfer_shares` in src/exchange/app/services/matching.py: move `q`
shares of `tk` from `from_account_id` to `to_account_id`. The seller row is
decremented first (deleted at zero), then the buyer row is incremented or
created. -/
def transfer_shares (s : ExchangeState) (tk from_account_id to_account_id : String)
    (q : Int) : Option ExchangeState :=
  (decSellerHolding s.holdings from_account_id tk q).map
    (fun hs => { s with holdings := incBuyerHolding hs to_account_id tk q })

/-- `_update_order_after_fill`: decrement `remaining_quantity` by the filled
quantity and set status FILLED at zero remaining, else PARTIAL. -/
def update_order_after_fill (o : Order) (filled_quantity : Int) : Order :=
  let o' : Order := { o with remaining_quantity := o.remaining_quantity - filled_quantity }
  if o'.remaining_quantity = 0 then { o' with status := OrderStatus.FILLED }
  else { o' with status := OrderStatus.PARTIAL }

/-- `_cancel_unfilled_market_portion`: set status CANCELLED, freezing
`remaining_quantity`. -/
def cancel_unfilled_market_portion (o : Order) : Order :=
  { o with status := OrderStatus.CANCELLED }

/-- `_validate_buyer_cash`: whether the buyer's current balance covers
`price * quantity`; `none` when the account row is missing. -/
def validate_buyer_cash (s : ExchangeState) (buyer_id : String)
    (price quantity : Int) : Option Bool :=
  (findAccount s.accounts buyer_id).map
    (fun b => decide (price * quantity ≤ b.cash_balance))

/-- The request schema for creating a company. Core fields follow
`CompanyCreate` in src/app/schemas/admin.py. Modelled from the spec: the
`ipo_price` field, read by `create_company` as `data.ipo_price`, is missing
from the snapshot's schema file; spec section 6 gives
`POST /admin/companies {ticker, name, total_shares, float_shares, ipo_price?}`,
so it is carried here as an optional price in cents. -/
structure CompanyCreate where
  ticker : String
  name : String
  total_shares : Int
  float_shares : Int
  ipo_price : Option Int
deriving DecidableEq, Repr

/-- `create_company` in src/app/services/admin.py: create the company, a
`<TICKER>_TREASURY` account with zero cash, and — when `float_shares > 0` —
a treasury holding of the whole float plus an OPEN SELL LIMIT order for the
whole float at the IPO price. `treasury_hash` models the generated API-key
digest, `ipo_order_id` the `uuid4` order id and `ts` the order's submission
timestamp. `none` models the `IntegrityError` on a duplicate company ticker
or a duplicate treasury account id. -/
def create_company (s : ExchangeState) (data : CompanyCreate)
    (treasury_hash ipo_order_id : String) (ts : Nat) : Option ExchangeState :=
  let tk := data.ticker.toUpper
  let treasury_id := tk ++ "_TREASURY"
  if (findCompany s.companies tk).isSome then none
  else if (findAccount s.accounts treasury_id).isSome then none
  else
    let company : Company :=
      { ticker := tk, name := data.name, total_shares := data.total_shares,
        float_shares := data.float_shares }
    let treasury : Account :=
      { id := treasury_id, api_key_hash := treasury_hash, cash_balance := 0 }
    let ipo_order : Order :=
      { id := ipo_order_id, account_id := treasury_id, ticker := tk,
        side := OrderSide.SELL, order_type := OrderType.LIMIT,
        price := data.ipo_price, quantity := data.float_shares,
        remaining_quantity := data.float_shares, status := OrderStatus.OPEN,
        timestamp := ts }
    some { s with
      companies := s.companies ++ [company],
      accounts := s.accounts ++ [treasury],
      holdings :=
        if 0 < data.float_shares then
          s.holdings ++ [{ account_id := treasury_id, ticker := tk,
                           quantity := data.float_shares, cost_basis := 0 }]
        else s.holdings,
      orders :=
        if 0 < data.float_shares then s.orders ++ [ipo_order]
        else s.orders }

/-- The sort key a SQL `ORDER BY price ASC` gives a price column: `NULL`
sorts first (SQLite `NULLS FIRST` on ascending order), modelled by `⊥` of
`WithBot ℤ`. -/
def priceBot : Option Int → WithBot ℤ
  | none => ⊥
  | some p => (p : WithBot ℤ)

/-- Sort key of `_get_matching_order`'s BUY branch:
`ORDER BY price ASC, timestamp ASC`. -/
def buySearchKey (o : Order) : Lex (WithBot ℤ × ℕ) :=
  toLex (priceBot o.price, o.timestamp)

/-- Sort key of `_get_matching_order`'s SELL branch:
`ORDER BY price DESC, timestamp ASC` (price dualised). -/
def sellSearchKey (o : Order) : Lex ((WithBot ℤ)ᵒᵈ × ℕ) :=
  toLex (OrderDual.toDual (priceBot o.price), o.timestamp)

/-- SQL `a <= b` on two nullable prices: unknown (false) when either side is
NULL. -/
def priceLeB : Option Int → Option Int → Bool
  | some x, some y => decide (x ≤ y)
  | _, _ => false

/-- SQL `a >= b` on two nullable prices. -/
def priceGeB : Option Int → Option Int → Bool
  | some x, some y => decide (y ≤ x)
  | _, _ => false

/-- The WHERE clause of `_get_matching_order`: same ticker, opposite side,
status OPEN or PARTIAL, different account; the SELL branch additionally
requires `price IS NOT NULL`, and a LIMIT incoming order bounds the
candidate's price (`<=` its limit for BUY, `>=` for SELL). -/
def isCandidate (incoming o : Order) : Bool :=
  match incoming.side with
  | OrderSide.BUY =>
    o.ticker == incoming.ticker &&
    o.side == OrderSide.SELL &&
    (o.status == OrderStatus.OPEN || o.status == OrderStatus.PARTIAL) &&
    o.account_id != incoming.account_id &&
    (incoming.order_type != OrderType.LIMIT || priceLeB o.price incoming.price)
  | OrderSide.SELL =>
    o.ticker == incoming.ticker &&
    o.side == OrderSide.BUY &&
    (o.status == OrderStatus.OPEN || o.status == OrderStatus.PARTIAL) &&
    o.price.isSome &&
    o.account_id != incoming.account_id &&
    (incoming.order_type != OrderType.LIMIT || priceGeB o.price incoming.price)

/-- Executable strict comparison realising `buySearchKey`'s order:
`ORDER BY price ASC (NULLS FIRST), timestamp ASC`. -/
def buyLtB (a b : Order) : Bool :=
  match a.price, b.price with
  | none, none => decide (a.timestamp < b.timestamp)
  | none, some _ => true
  | some _, none => false
  | some x, some y =>
    decide (x < y) || (decide (x = y) && decide (a.timestamp < b.timestamp))

/-- Executable strict comparison realising `sellSearchKey`'s order:
`ORDER BY price DESC, timestamp ASC`. -/
def sellLtB (a b : Order) : Bool :=
  match a.price, b.price with
  | none, none => decide (a.timestamp < b.timestamp)
  | none, some _ => false
  | some _, none => true
  | some x, some y =>
    decide (y < x) || (decide (x = y) && decide (a.timestamp < b.timestamp))

/-- `SELECT ... ORDER BY ... LIMIT 1` over a list of rows in table order:
the first row attaining the minimum of the strict comparison `lt` (a later
row replaces the current best only when strictly smaller, which is a
stable sort's tie behavior). -/
def selectBy (lt : Order → Order → Bool) : List Order → Option Order
  | [] => none
  | o :: rest =>
    match selectBy lt rest with
    | none => some o
    | some b => if lt b o then some b else some o

/-- `_get_matching_order` in src/exchange/app/services/matching.py: the
best-priced, earliest resting order matching the incoming order. -/
def get_matching_order (s : ExchangeState) (incoming : Order) : Option Order :=
  match incoming.side with
  | OrderSide.BUY => selectBy buyLtB (s.orders.filter (isCandidate incoming))
  | OrderSide.SELL => selectBy sellLtB (s.orders.filter (isCandidate incoming))

/-- The opposite order side. -/
def oppositeSide : OrderSide → OrderSide
  | OrderSide.BUY => OrderSide.SELL
  | OrderSide.SELL => OrderSide.BUY

/-- The resting-book qualification of the specification, stated over the
data model: OPEN/PARTIAL, same ticker, opposite side, different owner, a
non-null price when sought by a SELL, and within the incoming LIMIT's
price bound. -/
def RestingQualifies (incoming c : Order) : Prop :=
  c.ticker = incoming.ticker ∧
  c.side = oppositeSide incoming.side ∧
  (c.status = OrderStatus.OPEN ∨ c.status = OrderStatus.PARTIAL) ∧
  c.account_id ≠ incoming.account_id ∧
  (incoming.side = OrderSide.SELL → c.price.isSome = true) ∧
  (incoming.order_type = OrderType.LIMIT →
    ∃ L p, incoming.price = some L ∧ c.price = some p ∧
      (incoming.side = OrderSide.BUY → p ≤ L) ∧
      (incoming.side = OrderSide.SELL → L ≤ p))

/-- Outcome of one iteration of the matching loop in `match_order`. -/
inductive StepOut where
  | noCandidate
  | cashShort (buy_order sell_order : Order)
  | failure
  | filled (s' : ExchangeState) (incoming' : Order) (resting : Order) (t : Trade)
deriving DecidableEq, Repr

/-- One iteration of the `while` loop of `match_order` in
src/exchange/app/services/matching.py. The incoming order is threaded
separately from the order table during its own pass (it is never a
candidate for itself: candidates must belong to a different account), and
its final version is appended by `place_order`. `failure` models an
exception (missing row, or a NULL execution price) that aborts the whole
submission. The trade id models `uuid4` as a fresh deterministic name. -/
def matchStep (s : ExchangeState) (order : Order) : StepOut :=
  match get_matching_order s order with
  | none => StepOut.noCandidate
  | some resting =>
    match resting.price with
    | none => StepOut.failure
    | some execution_price =>
      let execution_quantity := min order.remaining_quantity resting.remaining_quantity
      let buy_order := if order.side = OrderSide.BUY then order else resting
      let sell_order := if order.side = OrderSide.BUY then resting else order
      match validate_buyer_cash s buy_order.account_id execution_price execution_quantity with
      | none => StepOut.failure
      | some false => StepOut.cashShort buy_order sell_order
      | some true =>
        let trade : Trade :=
          { id := "T" ++ toString s.trades.length, ticker := order.ticker,
            price := execution_price, quantity := execution_quantity,
            buyer_id := buy_order.account_id, seller_id := sell_order.account_id,
            buy_order_id := buy_order.id, sell_order_id := sell_order.id }
        match transfer_cash s buy_order.account_id sell_order.account_id
            (execution_price * execution_quantity) with
        | none => StepOut.failure
        | some s1 =>
          match transfer_shares s1 order.ticker sell_order.account_id
              buy_order.account_id execution_quantity with
          | none => StepOut.failure
          | some s2 =>
            StepOut.filled
              { s2 with
                orders := s2.orders.map (fun x =>
                  if x.id == resting.id then update_order_after_fill resting execution_quantity
                  else x),
                trades := s2.trades ++ [trade] }
              (update_order_after_fill order execution_quantity) resting trade

/-- Why the matching loop stopped: book exhausted, the mid-match
insufficient-cash break, or the incoming order fully filled. -/
inductive ExitReason where
  | noCandidate
  | cashShort
  | fullyFilled
deriving DecidableEq, Repr

/-- The `while order.remaining_quantity > 0` loop of `match_order`,
fuel-bounded (the source terminates because every iteration either reduces
the incoming remaining quantity or fills out a resting order; `none` on
exhausted fuel or an aborting exception). -/
def matchLoop : Nat → ExchangeState → Order → List Trade →
    Option (ExchangeState × Order × List Trade × ExitReason)
  | 0, _, _, _ => none
  | fuel + 1, s, order, acc =>
    if 0 < order.remaining_quantity then
      match matchStep s order with
      | StepOut.noCandidate => some (s, order, acc, ExitReason.noCandidate)
      | StepOut.cashShort _ _ => some (s, order, acc, ExitReason.cashShort)
      | StepOut.failure => none
      | StepOut.filled s' order' _ t => matchLoop fuel s' order' (acc ++ [t])
    else some (s, order, acc, ExitReason.fullyFilled)

/-- `match_order` in src/exchange/app/services/matching.py: run the
matching loop, then apply the immediate-or-cancel rule to a MARKET order
left with unfilled remainder. The returned order is the incoming order's
final version; the exit reason is instrumentation recording which break
ended the loop. -/
def match_order (s : ExchangeState) (order : Order) :
    Option (ExchangeState × Order × List Trade × ExitReason) :=
  match matchLoop (order.remaining_quantity.toNat + s.orders.length + 1) s order [] with
  | none => none
  | some (s', o, trades, ex) =>
    let o' :=
      if o.order_type = OrderType.MARKET ∧ 0 < o.remaining_quantity then
        cancel_unfilled_market_portion o
      else o
    some (s', o', trades, ex)

/-- Total cash over all account rows, in cents. -/
def cashSum (l : List Account) : Int :=
  (l.map (fun a => a.cash_balance)).sum

/-- Total held quantity of ticker `tk` over all holding rows. -/
def tickerShareSum (hs : List Holding) (tk : String) : Int :=
  ((hs.filter (fun h => h.ticker == tk)).map (fun h => h.quantity)).sum

/-- The order-submission request (`OrderCreate` in
src/exchange/app/schemas/trader.py); its pydantic validation enforces
`quantity > 0` and a positive price when one is supplied. -/
structure OrderCreate where
  ticker : String
  side : OrderSide
  order_type : OrderType
  quantity : Int
  price : Option Int
deriving DecidableEq, Repr

/-- The structured rejection reasons of `place_order` in
src/app/services/trader.py (each a `ValueError` whose message carries the
shown amounts, surfaced as a 400 response). -/
inductive RejectReason where
  | unknown_ticker
  | missing_price
  | insufficient_shares (available need : Int)
  | insufficient_funds (available need : Int)
deriving DecidableEq, Repr

/-- Result of an order submission: rejected by the validator, accepted
(with the committed state, the final incoming order, the trades of its
matching pass and the loop's exit reason), or aborted by an exception. -/
inductive PlaceResult where
  | rejected (r : RejectReason)
  | accepted (s' : ExchangeState) (order : Order) (trades : List Trade) (ex : ExitReason)
  | failure
deriving DecidableEq, Repr

/-- Shares of `tk` already committed to the account's OPEN/PARTIAL SELL
orders on that ticker (the reservation subtracted in `place_order`'s SELL
check). -/
def committed_sell_shares (orders : List Order) (aid tk : String) : Int :=
  ((orders.filter (fun o =>
      o.account_id == aid && o.ticker == tk && o.side == OrderSide.SELL &&
      (o.status == OrderStatus.OPEN || o.status == OrderStatus.PARTIAL))).map
    (fun o => o.remaining_quantity)).sum

/-- Free shares: held quantity (0 when no holding row) minus the committed
SELL reservations. -/
def available_shares (s : ExchangeState) (aid tk : String) : Int :=
  (match findHolding s.holdings aid tk with
   | some h => h.quantity
   | none => 0) - committed_sell_shares s.orders aid tk

/-- Cash already committed to the account's OPEN/PARTIAL priced BUY orders
(over all tickers, as in the source, which filters only on account, side,
status and `price IS NOT NULL`). -/
def committed_buy_cash (orders : List Order) (aid : String) : Int :=
  ((orders.filter (fun o =>
      o.account_id == aid && o.side == OrderSide.BUY &&
      (o.status == OrderStatus.OPEN || o.status == OrderStatus.PARTIAL) &&
      o.price.isSome)).map
    (fun o => o.price.getD 0 * o.remaining_quantity)).sum

/-- Free cash: the account's balance minus the committed BUY reservations. -/
def available_cash (account : Account) (orders : List Order) : Int :=
  account.cash_balance - committed_buy_cash orders account.id

/-- `place_order` in src/app/services/trader.py: validate the submission
(ticker known; LIMIT carries a price; MARKET's price discarded; SELL within
free shares; BUY LIMIT within free cash), then insert the OPEN order, run
the matching pass and commit. `oid` models the generated `uuid4` id and
`ts` the submission timestamp; `failure` models an aborting exception
(unknown account, or a crash inside matching). -/
def place_order (s : ExchangeState) (aid : String) (data : OrderCreate)
    (oid : String) (ts : Nat) : PlaceResult :=
  match findAccount s.accounts aid with
  | none => PlaceResult.failure
  | some account =>
    let tk := data.ticker.toUpper
    match findCompany s.companies tk with
    | none => PlaceResult.rejected RejectReason.unknown_ticker
    | some _ =>
      if data.order_type = OrderType.LIMIT ∧ data.price = none then
        PlaceResult.rejected RejectReason.missing_price
      else
        let price := if data.order_type = OrderType.MARKET then none else data.price
        if data.side = OrderSide.SELL ∧ available_shares s aid tk < data.quantity then
          PlaceResult.rejected
            (RejectReason.insufficient_shares (available_shares s aid tk) data.quantity)
        else if data.side = OrderSide.BUY ∧ data.order_type = OrderType.LIMIT ∧
            available_cash account s.orders < data.price.getD 0 * data.quantity then
          PlaceResult.rejected
            (RejectReason.insufficient_funds (available_cash account s.orders)
              (data.price.getD 0 * data.quantity))
        else
          let order : Order :=
            { id := oid, account_id := aid, ticker := tk, side := data.side,
              order_type := data.order_type, price := price,
              quantity := data.quantity, remaining_quantity := data.quantity,
              status := OrderStatus.OPEN, timestamp := ts }
          match match_order s order with
          | none => PlaceResult.failure
          | some (s', o', trades, ex) =>
            PlaceResult.accepted { s' with orders := s'.orders ++ [o'] } o' trades ex

/-- The submission endpoint as the store observes it: an accepted order's
matching pass commits its state; a rejection or exception raises before
commit, so the session rolls back and the store is unchanged. -/
def submit_order (s : ExchangeState) (aid : String) (data : OrderCreate)
    (oid : String) (ts : Nat) : ExchangeState × PlaceResult :=
  match place_order s aid data oid ts with
  | PlaceResult.accepted s' o trades ex => (s', PlaceResult.accepted s' o trades ex)
  | r => (s, r)

/-! Concrete instances. `demo_state` mirrors the fixture of
src/exchange/tests/test_matching.py's cost-basis tests: a seller holding
1000 TECH at a cost basis of 50000.00, a resting SELL LIMIT of 50 at
100.00, and a buyer with 10000.00 cash. All money is in cents. -/

/-- Demo book: one company, two traders, one resting SELL LIMIT order. -/
def demo_state : ExchangeState :=
  { companies := [{ ticker := "TECH", name := "Tech Corp", total_shares := 1000000,
                    float_shares := 1000 }],
    accounts := [{ id := "S", api_key_hash := "hs", cash_balance := 0 },
                 { id := "B", api_key_hash := "hb", cash_balance := 1000000 }],
    holdings := [{ account_id := "S", ticker := "TECH", quantity := 1000,
                   cost_basis := 5000000 }],
    orders := [{ id := "sell1", account_id := "S", ticker := "TECH",
                 side := OrderSide.SELL, order_type := OrderType.LIMIT,
                 price := some 10000, quantity := 50, remaining_quantity := 50,
                 status := OrderStatus.OPEN, timestamp := 1 }],
    trades := [] }

/-- The resting order of `demo_state`. -/
def demo_resting : Order :=
  { id := "sell1", account_id := "S", ticker := "TECH", side := OrderSide.SELL,
    order_type := OrderType.LIMIT, price := some 10000, quantity := 50,
    remaining_quantity := 50, status := OrderStatus.OPEN, timestamp := 1 }

/-- An incoming BUY LIMIT 50 @ 100.00 from the demo buyer. -/
def demo_buy : Order :=
  { id := "buy1", account_id := "B", ticker := "TECH", side := OrderSide.BUY,
    order_type := OrderType.LIMIT, price := some 10000, quantity := 50,
    remaining_quantity := 50, status := OrderStatus.OPEN, timestamp := 2 }

/-- An incoming BUY MARKET 100 from the demo buyer (the book holds only 50). -/
def demo_market : Order :=
  { id := "mkt1", account_id := "B", ticker := "TECH", side := OrderSide.BUY,
    order_type := OrderType.MARKET, price := none, quantity := 100,
    remaining_quantity := 100, status := OrderStatus.OPEN, timestamp := 2 }

/-- The demo buyer's account row. -/
def demo_buyer : Account := { id := "B", api_key_hash := "hb", cash_balance := 1000000 }

/-- The demo seller's account row. -/
def demo_seller : Account := { id := "S", api_key_hash := "hs", cash_balance := 0 }

/-- The fill of `demo_buy` against `demo_state`. -/
def demo_fill : StepOut := matchStep demo_state demo_buy

/-- State after the demo fill. -/
def demo_fill_state : ExchangeState :=
  match demo_fill with
  | StepOut.filled s' _ _ _ => s'
  | _ => demo_state

/-- Incoming order after the demo fill. -/
def demo_fill_order : Order :=
  match demo_fill with
  | StepOut.filled _ o' _ _ => o'
  | _ => demo_buy

/-- Resting order matched by the demo fill. -/
def demo_fill_resting : Order :=
  match demo_fill with
  | StepOut.filled _ _ r _ => r
  | _ => demo_buy

/-- Trade created by the demo fill. -/
def demo_fill_trade : Trade :=
  match demo_fill with
  | StepOut.filled _ _ _ t => t
  | _ => { id := "", ticker := "", price := 0, quantity := 0, buyer_id := "",
           seller_id := "", buy_order_id := "", sell_order_id := "" }

/-- The full matching pass of the demo MARKET buy. -/
def demo_market_run : Option (ExchangeState × Order × List Trade × ExitReason) :=
  match_order demo_state demo_market

/-- Final version of the demo MARKET order. -/
def demo_market_order : Order :=
  match demo_market_run with
  | some (_, o', _, _) => o'
  | none => demo_market

/-- Components of the demo MARKET run other than the order. -/
def demo_market_state : ExchangeState :=
  match demo_market_run with
  | some (s', _, _, _) => s'
  | none => demo_state

/-- Trades of the demo MARKET run. -/
def demo_market_trades : List Trade :=
  match demo_market_run with
  | some (_, _, tr, _) => tr
  | none => []

/-- Exit reason of the demo MARKET run. -/
def demo_market_exit : ExitReason :=
  match demo_market_run with
  | some (_, _, _, ex) => ex
  | none => ExitReason.noCandidate

/-- The full matching pass of the demo LIMIT buy. -/
def demo_limit_run : Option (ExchangeState × Order × List Trade × ExitReason) :=
  match_order demo_state demo_buy

/-- State after the demo LIMIT buy's matching pass. -/
def demo_limit_state : ExchangeState :=
  match match_order demo_state demo_buy with
  | some (s', _, _, _) => s'
  | none => demo_state

/-- Final version of the demo LIMIT buy. -/
def demo_limit_order : Order :=
  match match_order demo_state demo_buy with
  | some (_, o', _, _) => o'
  | none => demo_buy

/-- Trades of the demo LIMIT buy's matching pass. -/
def demo_limit_trades : List Trade :=
  match match_order demo_state demo_buy with
  | some (_, _, tr, _) => tr
  | none => []

/-- Exit reason of the demo LIMIT buy's matching pass. -/
def demo_limit_exit : ExitReason :=
  match match_order demo_state demo_buy with
  | some (_, _, _, ex) => ex
  | none => ExitReason.noCandidate

/-! Concrete instances for the price-time tie at equal price and equal
timestamp: two qualifying SELL orders, the row inserted first carrying the
lexicographically larger id "b". -/

/-- Book with two tied SELL orders, ids "b" (first row) and "a". -/
def tie_state : ExchangeState :=
  { companies := [{ ticker := "TECH", name := "Tech Corp", total_shares := 1000,
                    float_shares := 100 }],
    accounts := [{ id := "X", api_key_hash := "hx", cash_balance := 0 },
                 { id := "Y", api_key_hash := "hy", cash_balance := 0 },
                 { id := "Z", api_key_hash := "hz", cash_balance := 1000000 }],
    holdings := [{ account_id := "X", ticker := "TECH", quantity := 100, cost_basis := 0 },
                 { account_id := "Y", ticker := "TECH", quantity := 100, cost_basis := 0 }],
    orders := [{ id := "b", account_id := "X", ticker := "TECH",
                 side := OrderSide.SELL, order_type := OrderType.LIMIT,
                 price := some 5000, quantity := 100, remaining_quantity := 100,
                 status := OrderStatus.OPEN, timestamp := 7 },
               { id := "a", account_id := "Y", ticker := "TECH",
                 side := OrderSide.SELL, order_type := OrderType.LIMIT,
                 price := some 5000, quantity := 100, remaining_quantity := 100,
                 status := OrderStatus.OPEN, timestamp := 7 }],
    trades := [] }

/-- The first-row tied order (id "b"). -/
def tie_order_b : Order :=
  { id := "b", account_id := "X", ticker := "TECH", side := OrderSide.SELL,
    order_type := OrderType.LIMIT, price := some 5000, quantity := 100,
    remaining_quantity := 100, status := OrderStatus.OPEN, timestamp := 7 }

/-- An incoming BUY LIMIT against the tied book. -/
def tie_incoming : Order :=
  { id := "zbuy", account_id := "Z", ticker := "TECH", side := OrderSide.BUY,
    order_type := OrderType.LIMIT, price := some 5000, quantity := 10,
    remaining_quantity := 10, status := OrderStatus.OPEN, timestamp := 9 }

/-! Concrete trace reaching the mid-match cash-short break with a LIMIT
order on the buy side: account A's cash is drained below its resting BUY
LIMIT reservation by a MARKET BUY on another ticker, which the validator
does not cash-check. -/

/-- Initial admin-created state of the cash-short trace. -/
def cs_s0 : ExchangeState :=
  { companies := [{ ticker := "TECH", name := "Tech", total_shares := 100, float_shares := 0 },
                  { ticker := "GOLD", name := "Gold", total_shares := 100, float_shares := 0 }],
    accounts := [{ id := "A", api_key_hash := "ha", cash_balance := 10000 },
                 { id := "B", api_key_hash := "hb", cash_balance := 0 },
                 { id := "C", api_key_hash := "hc", cash_balance := 0 }],
    holdings := [{ account_id := "B", ticker := "TECH", quantity := 1, cost_basis := 0 },
                 { account_id := "C", ticker := "GOLD", quantity := 1, cost_basis := 0 }],
    orders := [], trades := [] }

/-- Committed state of an accepted submission (fallback `cs_s0`). -/
def acceptedState (fallback : ExchangeState) : PlaceResult → ExchangeState
  | PlaceResult.accepted s _ _ _ => s
  | _ => fallback

/-- Whether a submission was accepted. -/
def isAccepted : PlaceResult → Bool
  | PlaceResult.accepted _ _ _ _ => true
  | _ => false

/-- Exit reason of an accepted submission's matching pass. -/
def exitOf : PlaceResult → Option ExitReason
  | PlaceResult.accepted _ _ _ ex => some ex
  | _ => none

/-- Trades of an accepted submission's matching pass. -/
def tradesOf : PlaceResult → Option (List Trade)
  | PlaceResult.accepted _ _ tr _ => some tr
  | _ => none

/-- The buy side of a cash-short matching step. -/
def cashShortBuySide : StepOut → Option Order
  | StepOut.cashShort b _ => some b
  | _ => none

/-- Trace step 1: A posts BUY LIMIT 1 TECH @ 100.00 (accepted, rests). -/
def cs_r1 : PlaceResult :=
  place_order cs_s0 "A"
    { ticker := "TECH", side := OrderSide.BUY, order_type := OrderType.LIMIT,
      quantity := 1, price := some 10000 } "o1" 1

/-- State after trace step 1. -/
def cs_s1 : ExchangeState := acceptedState cs_s0 cs_r1

/-- Trace step 2: C posts SELL LIMIT 1 GOLD @ 60.00 (accepted, rests). -/
def cs_r2 : PlaceResult :=
  place_order cs_s1 "C"
    { ticker := "GOLD", side := OrderSide.SELL, order_type := OrderType.LIMIT,
      quantity := 1, price := some 6000 } "o2" 2

/-- State after trace step 2. -/
def cs_s2 : ExchangeState := acceptedState cs_s0 cs_r2

/-- Trace step 3: A posts BUY MARKET 1 GOLD (no validator cash check);
it fills at 60.00 and drains A's cash to 40.00, below A's resting
reservation of 100.00. -/
def cs_r3 : PlaceResult :=
  place_order cs_s2 "A"
    { ticker := "GOLD", side := OrderSide.BUY, order_type := OrderType.MARKET,
      quantity := 1, price := none } "o3" 3

/-- State after trace step 3. -/
def cs_s3 : ExchangeState := acceptedState cs_s0 cs_r3

/-- The incoming order of trace step 4: B posts SELL LIMIT 1 TECH @ 100.00. -/
def cs_o4 : Order :=
  { id := "o4", account_id := "B", ticker := "TECH", side := OrderSide.SELL,
    order_type := OrderType.LIMIT, price := some 10000, quantity := 1,
    remaining_quantity := 1, status := OrderStatus.OPEN, timestamp := 4 }

/-- Trace step 4: B's SELL meets A's resting LIMIT BUY and the engine hits
the insufficient-cash break. -/
def cs_r4 : PlaceResult :=
  place_order cs_s3 "B"
    { ticker := "TECH", side := OrderSide.SELL, order_type := OrderType.LIMIT,
      quantity := 1, price := some 10000 } "o4" 4

/-- An empty store for company-creation runs. -/
def cw_s0 : ExchangeState :=
  { companies := [], accounts := [], holdings := [], orders := [], trades := [] }

/-- A company-creation request: lowercase ticker, float 500, IPO at 100.00. -/
def cw_data : CompanyCreate :=
  { ticker := "tech", name := "Tech Corp", total_shares := 1000,
    float_shares := 500, ipo_price := some 10000 }

/-- The store after the demo company creation. -/
def cw_state : ExchangeState :=
  match create_company cw_s0 cw_data "h" "ipo1" 1 with
  | some s => s
  | none => cw_s0

/-- A submission for an unknown ticker, used to exercise rejection. -/
def rj_data : OrderCreate :=
  { ticker := "nope", side := OrderSide.BUY, order_type := OrderType.LIMIT,
    quantity := 1, price := some 100 }

/-! Helper lemmas. -/

theorem selectBy_nil (lt : Order → Order → Bool) :
    selectBy lt ([] : List Order) = none := rfl

theorem selectBy_cons (lt : Order → Order → Bool) (o : Order) (rest : List Order) :
    selectBy lt (o :: rest) =
      some ((selectBy lt rest).elim o (fun b => if lt b o then b else o)) := by
  cases h : selectBy lt rest with
  | none => simp [selectBy, h]
  | some b =>
    simp only [selectBy, h, Option.elim_some]
    split <;> rfl

theorem selectBy_mem (lt : Order → Order → Bool) :
    ∀ l r, selectBy lt l = some r → r ∈ l := by
  intro l
  induction l with
  | nil => intro r h; simp [selectBy_nil] at h
  | cons o rest ih =>
    intro r h
    rw [selectBy_cons] at h
    cases hsel : selectBy lt rest with
    | none =>
      rw [hsel] at h
      simp only [Option.elim_none, Option.some.injEq] at h
      subst h
      exact List.mem_cons_self _ _
    | some b =>
      rw [hsel] at h
      simp only [Option.elim_some, Option.some.injEq] at h
      by_cases hlt : lt b o = true
      · rw [if_pos hlt] at h
        subst h
        exact List.mem_cons_of_mem _ (ih _ hsel)
      · rw [if_neg hlt] at h
        subst h
        exact List.mem_cons_self _ _

theorem selectBy_min {β : Type} [LinearOrder β] (lt : Order → Order → Bool)
    (key : Order → β) (hiff : ∀ a b, lt a b = true ↔ key a < key b) :
    ∀ l r, selectBy lt l = some r → ∀ c ∈ l, key r ≤ key c := by
  intro l
  induction l with
  | nil => intro r h; simp [selectBy_nil] at h
  | cons o rest ih =>
    intro r h c hc
    rw [selectBy_cons] at h
    cases hsel : selectBy lt rest with
    | none =>
      rw [hsel] at h
      simp only [Option.elim_none, Option.some.injEq] at h
      subst h
      rcases List.mem_cons.mp hc with hco | hcr
      · subst hco; exact le_refl _
      · cases rest with
        | nil => simp at hcr
        | cons y ys => rw [selectBy_cons] at hsel; simp at hsel
    | some b =>
      rw [hsel] at h
      simp only [Option.elim_some, Option.some.injEq] at h
      by_cases hlt : lt b o = true
      · rw [if_pos hlt] at h
        subst h
        rcases List.mem_cons.mp hc with hco | hcr
        · subst hco; exact le_of_lt ((hiff b c).mp hlt)
        · exact ih _ hsel c hcr
      · rw [if_neg hlt] at h
        subst h
        rcases List.mem_cons.mp hc with hco | hcr
        · subst hco; exact le_refl _
        · have hob : key o ≤ key b := by
            by_contra hcon
            exact hlt ((hiff b o).mpr (not_le.mp hcon))
          exact le_trans hob (ih _ hsel c hcr)

theorem selectBy_first {β : Type} [LinearOrder β] (lt : Order → Order → Bool)
    (key : Order → β) (hiff : ∀ a b, lt a b = true ↔ key a < key b) :
    ∀ l r, selectBy lt l = some r →
      ∃ l₁ l₂, l = l₁ ++ r :: l₂ ∧ ∀ c ∈ l₁, key r < key c := by
  intro l
  induction l with
  | nil => intro r h; simp [selectBy_nil] at h
  | cons o rest ih =>
    intro r h
    rw [selectBy_cons] at h
    cases hsel : selectBy lt rest with
    | none =>
      rw [hsel] at h
      simp only [Option.elim_none, Option.some.injEq] at h
      subst h
      exact ⟨[], rest, rfl, by simp⟩
    | some b =>
      rw [hsel] at h
      simp only [Option.elim_some, Option.some.injEq] at h
      by_cases hlt : lt b o = true
      · rw [if_pos hlt] at h
        subst h
        obtain ⟨l₁, l₂, hrest, hfirst⟩ := ih _ hsel
        refine ⟨o :: l₁, l₂, by rw [hrest, List.cons_append], ?_⟩
        intro c hc
        rcases List.mem_cons.mp hc with hco | hcl
        · subst hco; exact (hiff b c).mp hlt
        · exact hfirst c hcl
      · rw [if_neg hlt] at h
        subst h
        exact ⟨[], rest, rfl, by simp⟩

theorem buyLtB_iff (a b : Order) :
    buyLtB a b = true ↔ buySearchKey a < buySearchKey b := by
  rw [buyLtB, buySearchKey, buySearchKey]
  cases ha : a.price <;> cases hb : b.price <;>
    simp [priceBot, Prod.Lex.lt_iff, WithBot.bot_lt_coe, WithBot.not_lt_none,
      WithBot.coe_lt_coe, WithBot.coe_eq_coe]

theorem sellLtB_iff (a b : Order) :
    sellLtB a b = true ↔ sellSearchKey a < sellSearchKey b := by
  rw [sellLtB, sellSearchKey, sellSearchKey]
  cases ha : a.price <;> cases hb : b.price <;>
    rw [Prod.Lex.lt_iff] <;>
    simp only [priceBot, OrderDual.toDual_lt_toDual, OrderDual.toDual_inj,
      WithBot.coe_lt_coe, WithBot.coe_eq_coe]
  · simp
  · simp [WithBot.not_lt_bot, WithBot.bot_ne_coe]
  · simp [WithBot.bot_lt_coe]
  · simp

theorem findAccount_cons (a : Account) (rest : List Account) (aid : String) :
    findAccount (a :: rest) aid =
      if a.id = aid then some a else findAccount rest aid := by
  simp only [findAccount, List.find?]
  cases e : (a.id == aid) with
  | true =>
    have h := beq_iff_eq.mp e
    simp [h]
  | false =>
    have h : a.id ≠ aid := by simpa using e
    simp [h]

theorem creditFirst_none (l : List Account) (aid : String) (delta : Int) :
    creditFirst l aid delta = none ↔ findAccount l aid = none := by
  induction l with
  | nil => simp [creditFirst, findAccount]
  | cons a rest ih =>
    rw [creditFirst, findAccount_cons]
    by_cases h : a.id = aid
    · simp [h]
    · simp only [h, beq_iff_eq, if_neg h, if_false]
      cases hc : creditFirst rest aid delta <;> simp [hc] at ih ⊢ <;> simp [ih]

theorem creditFirst_find_self (aid : String) (delta : Int) :
    ∀ l l' a, creditFirst l aid delta = some l' →
      findAccount l aid = some a →
      findAccount l' aid = some { a with cash_balance := a.cash_balance + delta } := by
  intro l
  induction l with
  | nil => intro l' a h; simp [creditFirst] at h
  | cons b rest ih =>
    intro l' a h hf
    rw [creditFirst] at h
    rw [findAccount_cons] at hf
    by_cases hb : b.id = aid
    · rw [if_pos (beq_iff_eq.mpr hb)] at h
      rw [if_pos hb] at hf
      simp only [Option.some.injEq] at h hf
      subst h; subst hf
      rw [findAccount_cons]
      simp [hb]
    · rw [if_neg (by simpa using hb)] at h
      rw [if_neg hb] at hf
      cases hc : creditFirst rest aid delta with
      | none => rw [hc] at h; simp at h
      | some rest' =>
        rw [hc] at h
        simp only [Option.map_some', Option.some.injEq] at h
        subst h
        rw [findAccount_cons, if_neg hb]
        exact ih rest' a hc hf

theorem creditFirst_find_other (aid : String) (delta : Int) :
    ∀ l l' aid', creditFirst l aid delta = some l' → aid' ≠ aid →
      findAccount l' aid' = findAccount l aid' := by
  intro l
  induction l with
  | nil => intro l' aid' h; simp [creditFirst] at h
  | cons b rest ih =>
    intro l' aid' h hne
    rw [creditFirst] at h
    by_cases hb : b.id = aid
    · rw [if_pos (beq_iff_eq.mpr hb)] at h
      simp only [Option.some.injEq] at h
      subst h
      rw [findAccount_cons, findAccount_cons]
      have : b.id ≠ aid' := by rw [hb]; exact fun e => hne e.symm
      rw [if_neg this, if_neg this]
    · rw [if_neg (by simpa using hb)] at h
      cases hc : creditFirst rest aid delta with
      | none => rw [hc] at h; simp at h
      | some rest' =>
        rw [hc] at h
        simp only [Option.map_some', Option.some.injEq] at h
        subst h
        rw [findAccount_cons, findAccount_cons]
        by_cases hb' : b.id = aid'
        · simp [hb']
        · rw [if_neg hb', if_neg hb']
          exact ih rest' aid' hc hne

theorem creditFirst_cashSum (aid : String) (delta : Int) :
    ∀ l l', creditFirst l aid delta = some l' →
      cashSum l' = cashSum l + delta := by
  intro l
  induction l with
  | nil => intro l' h; simp [creditFirst] at h
  | cons b rest ih =>
    intro l' h
    rw [creditFirst] at h
    by_cases hb : b.id = aid
    · rw [if_pos (beq_iff_eq.mpr hb)] at h
      simp only [Option.some.injEq] at h
      subst h
      simp [cashSum]
      ring
    · rw [if_neg (by simpa using hb)] at h
      cases hc : creditFirst rest aid delta with
      | none => rw [hc] at h; simp at h
      | some rest' =>
        rw [hc] at h
        simp only [Option.map_some', Option.some.injEq] at h
        subst h
        simp only [cashSum, List.map_cons, List.sum_cons] at ih ⊢
        rw [ih rest' hc]
        ring

theorem creditFirst_size (aid : String) (delta : Int) :
    ∀ l l', creditFirst l aid delta = some l' →
      ∀ a' ∈ l', ∃ a ∈ l, a'.id = a.id ∧
        (a' = a ∨ a' = { a with cash_balance := a.cash_balance + delta }) := by
  intro l
  induction l with
  | nil => intro l' h; simp [creditFirst] at h
  | cons b rest ih =>
    intro l' h a' ha'
    rw [creditFirst] at h
    by_cases hb : b.id = aid
    · rw [if_pos (beq_iff_eq.mpr hb)] at h
      simp only [Option.some.injEq] at h
      subst h
      rcases List.mem_cons.mp ha' with he | hm
      · exact ⟨b, List.mem_cons_self _ _, by rw [he], Or.inr he⟩
      · exact ⟨a', List.mem_cons_of_mem _ hm, rfl, Or.inl rfl⟩
    · rw [if_neg (by simpa using hb)] at h
      cases hc : creditFirst rest aid delta with
      | none => rw [hc] at h; simp at h
      | some rest' =>
        rw [hc] at h
        simp only [Option.map_some', Option.some.injEq] at h
        subst h
        rcases List.mem_cons.mp ha' with he | hm
        · exact ⟨b, List.mem_cons_self _ _, by rw [he], Or.inl he⟩
        · obtain ⟨a, hal, hid, hor⟩ := ih rest' hc a' hm
          exact ⟨a, List.mem_cons_of_mem _ hal, hid, hor⟩

theorem transfer_cash_inv (s : ExchangeState) (bid sid : String) (amount : Int)
    (s' : ExchangeState) (h : transfer_cash s bid sid amount = some s') :
    s'.companies = s.companies ∧ s'.holdings = s.holdings ∧
    s'.orders = s.orders ∧ s'.trades = s.trades ∧
    cashSum s'.accounts = cashSum s.accounts ∧
    (∀ aid, aid ≠ bid → aid ≠ sid →
      findAccount s'.accounts aid = findAccount s.accounts aid) ∧
    (bid ≠ sid → ∀ a, findAccount s.accounts bid = some a →
      findAccount s'.accounts bid = some { a with cash_balance := a.cash_balance - amount }) ∧
    (sid ≠ bid → ∀ a, findAccount s.accounts sid = some a →
      findAccount s'.accounts sid = some { a with cash_balance := a.cash_balance + amount }) := by
  rw [transfer_cash] at h
  cases h1 : creditFirst s.accounts bid (-amount) with
  | none => rw [h1] at h; simp at h
  | some l1 =>
    rw [h1] at h
    dsimp only at h
    cases h2 : creditFirst l1 sid amount with
    | none => rw [h2] at h; simp at h
    | some l2 =>
      rw [h2] at h
      simp only [Option.map_some', Option.some.injEq] at h
      subst h
      refine ⟨rfl, rfl, rfl, rfl, ?_, ?_, ?_, ?_⟩
      · have e1 := creditFirst_cashSum bid (-amount) s.accounts l1 h1
        have e2 := creditFirst_cashSum sid amount l1 l2 h2
        simp only []
        rw [e2, e1]
        ring
      · intro aid ha hb
        have e1 := creditFirst_find_other bid (-amount) s.accounts l1 aid h1 ha
        have e2 := creditFirst_find_other sid amount l1 l2 aid h2 hb
        simp only []
        rw [e2, e1]
      · intro hne a ha
        have e1 := creditFirst_find_self bid (-amount) s.accounts l1 a h1 ha
        have e2 := creditFirst_find_other sid amount l1 l2 bid h2 hne
        simp only []
        rw [e2, e1, sub_eq_add_neg]
      · intro hne a ha
        have e1 := creditFirst_find_other bid (-amount) s.accounts l1 sid h1 hne
        rw [ha] at e1
        have e2 := creditFirst_find_self sid amount l1 l2 a h2 e1
        simp only []
        rw [e2]

theorem findHolding_cons (h : Holding) (rest : List Holding) (aid tk : String) :
    findHolding (h :: rest) aid tk =
      if h.account_id = aid ∧ h.ticker = tk then some h else findHolding rest aid tk := by
  simp only [findHolding, List.find?]
  cases e : (h.account_id == aid && h.ticker == tk) with
  | true =>
    have hp : h.account_id = aid ∧ h.ticker = tk := by
      simpa [Bool.and_eq_true, beq_iff_eq] using e
    simp [hp]
  | false =>
    have hp : ¬(h.account_id = aid ∧ h.ticker = tk) := by
      intro hc
      rw [hc.1, hc.2] at e
      simp at e
    simp [hp]

theorem tickerShareSum_cons (h : Holding) (rest : List Holding) (t : String) :
    tickerShareSum (h :: rest) t =
      (if h.ticker = t then h.quantity else 0) + tickerShareSum rest t := by
  simp only [tickerShareSum, List.filter_cons]
  by_cases e : h.ticker = t
  · simp [e]
  · simp [e]

theorem decSellerHolding_sum (aid tk : String) (q : Int) :
    ∀ l l', decSellerHolding l aid tk q = some l' →
      ∀ t, tickerShareSum l' t = tickerShareSum l t - (if t = tk then q else 0) := by
  intro l
  induction l with
  | nil => intro l' h; simp [decSellerHolding] at h
  | cons hd rest ih =>
    intro l' h t
    rw [decSellerHolding] at h
    cases e : (hd.account_id == aid && hd.ticker == tk) with
    | true =>
      rw [if_pos e] at h
      have hp : hd.account_id = aid ∧ hd.ticker = tk := by
        simpa [Bool.and_eq_true, beq_iff_eq] using e
      simp only [Option.some.injEq] at h
      subst h
      by_cases hz : hd.quantity - q = 0
      · rw [if_pos (by simpa using hz)]
        rw [tickerShareSum_cons]
        by_cases ht : t = tk
        · rw [if_pos ht, if_pos (by rw [hp.2, ht])]
          omega
        · rw [if_neg ht, if_neg (by rw [hp.2]; exact fun e' => ht e'.symm)]
          omega
      · rw [if_neg (by simpa using hz)]
        rw [tickerShareSum_cons, tickerShareSum_cons]
        by_cases ht : t = tk
        · rw [if_pos ht]
          have : hd.ticker = t := by rw [hp.2, ht]
          rw [if_pos this, if_pos this]
          dsimp only
          omega
        · rw [if_neg ht]
          have : hd.ticker ≠ t := by rw [hp.2]; exact fun e' => ht e'.symm
          rw [if_neg this, if_neg this]
          omega
    | false =>
      rw [if_neg (by simp [e])] at h
      cases hrec : decSellerHolding rest aid tk q with
      | none => rw [hrec] at h; simp at h
      | some rest' =>
        rw [hrec] at h
        simp only [Option.map_some', Option.some.injEq] at h
        subst h
        rw [tickerShareSum_cons, tickerShareSum_cons, ih rest' hrec t]
        omega

theorem incBuyerHolding_sum (aid tk : String) (q : Int) :
    ∀ l t, tickerShareSum (incBuyerHolding l aid tk q) t =
      tickerShareSum l t + (if t = tk then q else 0) := by
  intro l
  induction l with
  | nil =>
    intro t
    simp only [incBuyerHolding]
    rw [tickerShareSum_cons]
    by_cases ht : t = tk
    · rw [if_pos ht, if_pos ht.symm]
      simp [tickerShareSum]
    · rw [if_neg ht, if_neg (fun e' => ht e'.symm)]
      simp [tickerShareSum]
  | cons hd rest ih =>
    intro t
    rw [incBuyerHolding]
    by_cases hp : hd.account_id = aid ∧ hd.ticker = tk
    · rw [if_pos (by simp [hp.1, hp.2])]
      rw [tickerShareSum_cons, tickerShareSum_cons]
      by_cases ht : t = tk
      · have hti : hd.ticker = t := by rw [hp.2, ht]
        rw [if_pos ht, if_pos hti, if_pos hti]
        dsimp only
        omega
      · have hti : hd.ticker ≠ t := by rw [hp.2]; exact fun e' => ht e'.symm
        rw [if_neg ht, if_neg hti, if_neg hti]
        omega
    · rw [if_neg (by simpa [Bool.and_eq_true, beq_iff_eq] using hp)]
      rw [tickerShareSum_cons, tickerShareSum_cons, ih t]
      omega

theorem transfer_shares_inv (s : ExchangeState) (tk fa ta : String) (q : Int)
    (s' : ExchangeState) (h : transfer_shares s tk fa ta q = some s') :
    s'.companies = s.companies ∧ s'.accounts = s.accounts ∧
    s'.orders = s.orders ∧ s'.trades = s.trades ∧
    ∀ t, tickerShareSum s'.holdings t = tickerShareSum s.holdings t := by
  rw [transfer_shares] at h
  cases h1 : decSellerHolding s.holdings fa tk q with
  | none => rw [h1] at h; simp at h
  | some hs1 =>
    rw [h1] at h
    simp only [Option.map_some', Option.some.injEq] at h
    subst h
    refine ⟨rfl, rfl, rfl, rfl, ?_⟩
    intro t
    simp only []
    rw [incBuyerHolding_sum, decSellerHolding_sum fa tk q s.holdings hs1 h1 t]
    omega

theorem update_order_after_fill_def (o : Order) (q : Int) :
    update_order_after_fill o q =
      { o with remaining_quantity := o.remaining_quantity - q,
               status := if o.remaining_quantity - q = 0 then OrderStatus.FILLED
                         else OrderStatus.PARTIAL } := by
  simp only [update_order_after_fill]
  by_cases h : o.remaining_quantity - q = 0
  · rw [if_pos h, if_pos h]
  · rw [if_neg h, if_neg h]

theorem priceLeB_true_iff (a b : Option Int) :
    priceLeB a b = true ↔ ∃ x y, a = some x ∧ b = some y ∧ x ≤ y := by
  cases a <;> cases b <;> simp [priceLeB]

theorem priceGeB_true_iff (a b : Option Int) :
    priceGeB a b = true ↔ ∃ x y, a = some x ∧ b = some y ∧ y ≤ x := by
  cases a <;> cases b <;> simp [priceGeB]

theorem isCandidate_buy_facts (incoming c : Order)
    (hside : incoming.side = OrderSide.BUY) (h : isCandidate incoming c = true) :
    c.ticker = incoming.ticker ∧ c.side = OrderSide.SELL ∧
    (c.status = OrderStatus.OPEN ∨ c.status = OrderStatus.PARTIAL) ∧
    c.account_id ≠ incoming.account_id ∧
    (incoming.order_type = OrderType.LIMIT →
      ∃ L p, incoming.price = some L ∧ c.price = some p ∧ p ≤ L) := by
  rw [isCandidate, hside] at h
  simp only [Bool.and_eq_true, Bool.or_eq_true, beq_iff_eq, bne_iff_ne] at h
  obtain ⟨⟨⟨⟨ht, hs⟩, hst⟩, ha⟩, hb⟩ := h
  refine ⟨ht, hs, hst, ha, ?_⟩
  intro hl
  rcases hb with hb | hb
  · rw [hl] at hb; simp at hb
  · obtain ⟨p, L, hc, hi, hle⟩ := (priceLeB_true_iff _ _).mp hb
    exact ⟨L, p, hi, hc, hle⟩

theorem isCandidate_sell_facts (incoming c : Order)
    (hside : incoming.side = OrderSide.SELL) (h : isCandidate incoming c = true) :
    c.ticker = incoming.ticker ∧ c.side = OrderSide.BUY ∧
    (c.status = OrderStatus.OPEN ∨ c.status = OrderStatus.PARTIAL) ∧
    c.price.isSome = true ∧
    c.account_id ≠ incoming.account_id ∧
    (incoming.order_type = OrderType.LIMIT →
      ∃ L p, incoming.price = some L ∧ c.price = some p ∧ L ≤ p) := by
  rw [isCandidate, hside] at h
  simp only [Bool.and_eq_true, Bool.or_eq_true, beq_iff_eq, bne_iff_ne] at h
  obtain ⟨⟨⟨⟨⟨ht, hs⟩, hst⟩, hps⟩, ha⟩, hb⟩ := h
  refine ⟨ht, hs, hst, hps, ha, ?_⟩
  intro hl
  rcases hb with hb | hb
  · rw [hl] at hb; simp at hb
  · obtain ⟨p, L, hc, hi, hle⟩ := (priceGeB_true_iff _ _).mp hb
    exact ⟨L, p, hi, hc, hle⟩

theorem get_matching_order_mem (s : ExchangeState) (incoming r : Order)
    (h : get_matching_order s incoming = some r) :
    r ∈ s.orders ∧ isCandidate incoming r = true := by
  rw [get_matching_order] at h
  cases hside : incoming.side with
  | BUY =>
    rw [hside] at h
    dsimp only at h
    have := selectBy_mem buyLtB _ _ h
    exact ⟨(List.mem_filter.mp this).1, (List.mem_filter.mp this).2⟩
  | SELL =>
    rw [hside] at h
    dsimp only at h
    have := selectBy_mem sellLtB _ _ h
    exact ⟨(List.mem_filter.mp this).1, (List.mem_filter.mp this).2⟩

theorem get_matching_order_account_ne (s : ExchangeState) (incoming r : Order)
    (h : get_matching_order s incoming = some r) :
    r.account_id ≠ incoming.account_id := by
  obtain ⟨_, hc⟩ := get_matching_order_mem s incoming r h
  cases hside : incoming.side with
  | BUY => exact (isCandidate_buy_facts incoming r hside hc).2.2.2.1
  | SELL => exact (isCandidate_sell_facts incoming r hside hc).2.2.2.2.1

theorem get_matching_order_isSome (s : ExchangeState) (incoming c : Order)
    (hmem : c ∈ s.orders) (hc : isCandidate incoming c = true) :
    ∃ r, get_matching_order s incoming = some r := by
  have hfil : c ∈ s.orders.filter (isCandidate incoming) := List.mem_filter.mpr ⟨hmem, hc⟩
  rw [get_matching_order]
  cases hside : incoming.side with
  | BUY =>
    dsimp only
    cases hsel : selectBy buyLtB (s.orders.filter (isCandidate incoming)) with
    | none =>
      cases he : s.orders.filter (isCandidate incoming) with
      | nil => rw [he] at hfil; simp at hfil
      | cons y ys => rw [he, selectBy_cons] at hsel; simp at hsel
    | some r => exact ⟨r, rfl⟩
  | SELL =>
    dsimp only
    cases hsel : selectBy sellLtB (s.orders.filter (isCandidate incoming)) with
    | none =>
      cases he : s.orders.filter (isCandidate incoming) with
      | nil => rw [he] at hfil; simp at hfil
      | cons y ys => rw [he, selectBy_cons] at hsel; simp at hsel
    | some r => exact ⟨r, rfl⟩

theorem matchStep_filled_inv (s : ExchangeState) (o : Order) (s' : ExchangeState)
    (o' r : Order) (t : Trade) (h : matchStep s o = StepOut.filled s' o' r t) :
    ∃ p s1 s2,
      get_matching_order s o = some r ∧
      r.price = some p ∧
      t = { id := "T" ++ toString s.trades.length, ticker := o.ticker, price := p,
            quantity := min o.remaining_quantity r.remaining_quantity,
            buyer_id := (if o.side = OrderSide.BUY then o else r).account_id,
            seller_id := (if o.side = OrderSide.BUY then r else o).account_id,
            buy_order_id := (if o.side = OrderSide.BUY then o else r).id,
            sell_order_id := (if o.side = OrderSide.BUY then r else o).id } ∧
      validate_buyer_cash s t.buyer_id p t.quantity = some true ∧
      transfer_cash s t.buyer_id t.seller_id (p * t.quantity) = some s1 ∧
      transfer_shares s1 o.ticker t.seller_id t.buyer_id t.quantity = some s2 ∧
      o' = update_order_after_fill o t.quantity ∧
      s' = { s2 with
             orders := s2.orders.map (fun x =>
               if x.id == r.id then update_order_after_fill r t.quantity else x),
             trades := s2.trades ++ [t] } := by
  rw [matchStep] at h
  cases hg : get_matching_order s o with
  | none => rw [hg] at h; simp at h
  | some r0 =>
    rw [hg] at h
    dsimp only at h
    cases hp : r0.price with
    | none => rw [hp] at h; simp at h
    | some p =>
      rw [hp] at h
      dsimp only at h
      cases hv : validate_buyer_cash s (if o.side = OrderSide.BUY then o else r0).account_id
          p (min o.remaining_quantity r0.remaining_quantity) with
      | none => rw [hv] at h; simp at h
      | some b =>
        rw [hv] at h
        cases b with
        | false => dsimp only at h; simp at h
        | true =>
          dsimp only at h
          cases hc : transfer_cash s (if o.side = OrderSide.BUY then o else r0).account_id
              (if o.side = OrderSide.BUY then r0 else o).account_id
              (p * min o.remaining_quantity r0.remaining_quantity) with
          | none => rw [hc] at h; simp at h
          | some s1 =>
            rw [hc] at h
            dsimp only at h
            cases hsh : transfer_shares s1 o.ticker
                (if o.side = OrderSide.BUY then r0 else o).account_id
                (if o.side = OrderSide.BUY then o else r0).account_id
                (min o.remaining_quantity r0.remaining_quantity) with
            | none => rw [hsh] at h; simp at h
            | some s2 =>
              rw [hsh] at h
              dsimp only at h
              simp only [StepOut.filled.injEq] at h
              obtain ⟨hs', ho', hr, ht⟩ := h
              subst hr
              subst ht
              exact ⟨p, s1, s2, rfl, hp, rfl, hv, hc, hsh, ho'.symm, hs'.symm⟩

theorem matchStep_cashShort_inv (s : ExchangeState) (o bo so : Order)
    (h : matchStep s o = StepOut.cashShort bo so) :
    ∃ r p, get_matching_order s o = some r ∧ r.price = some p ∧
      bo = (if o.side = OrderSide.BUY then o else r) ∧
      so = (if o.side = OrderSide.BUY then r else o) ∧
      validate_buyer_cash s bo.account_id p
        (min o.remaining_quantity r.remaining_quantity) = some false := by
  rw [matchStep] at h
  cases hg : get_matching_order s o with
  | none => rw [hg] at h; simp at h
  | some r0 =>
    rw [hg] at h
    dsimp only at h
    cases hp : r0.price with
    | none => rw [hp] at h; simp at h
    | some p =>
      rw [hp] at h
      dsimp only at h
      cases hv : validate_buyer_cash s (if o.side = OrderSide.BUY then o else r0).account_id
          p (min o.remaining_quantity r0.remaining_quantity) with
      | none => rw [hv] at h; simp at h
      | some b =>
        rw [hv] at h
        cases b with
        | false =>
          dsimp only at h
          simp only [StepOut.cashShort.injEq] at h
          obtain ⟨hbo, hso⟩ := h
          subst hbo
          subst hso
          exact ⟨r0, p, rfl, hp, rfl, rfl, hv⟩
        | true =>
          dsimp only at h
          cases hc : transfer_cash s (if o.side = OrderSide.BUY then o else r0).account_id
              (if o.side = OrderSide.BUY then r0 else o).account_id
              (p * min o.remaining_quantity r0.remaining_quantity) with
          | none => rw [hc] at h; simp at h
          | some s1 =>
            rw [hc] at h
            dsimp only at h
            cases hsh : transfer_shares s1 o.ticker
                (if o.side = OrderSide.BUY then r0 else o).account_id
                (if o.side = OrderSide.BUY then o else r0).account_id
                (min o.remaining_quantity r0.remaining_quantity) with
            | none => rw [hsh] at h; simp at h
            | some s2 => rw [hsh] at h; dsimp only at h; simp at h

theorem matchStep_trade_ne (s : ExchangeState) (o : Order) (s' : ExchangeState)
    (o' r : Order) (t : Trade) (h : matchStep s o = StepOut.filled s' o' r t) :
    t.buyer_id ≠ t.seller_id := by
  obtain ⟨p, s1, s2, hg, hp, ht, _⟩ := matchStep_filled_inv s o s' o' r t h
  have hne := get_matching_order_account_ne s o r hg
  subst ht
  by_cases hside : o.side = OrderSide.BUY
  · rw [if_pos hside, if_pos hside]
    exact fun e => hne e.symm
  · rw [if_neg hside, if_neg hside]
    exact hne

theorem update_order_after_fill_fields (o : Order) (q : Int) :
    (update_order_after_fill o q).id = o.id ∧
    (update_order_after_fill o q).account_id = o.account_id ∧
    (update_order_after_fill o q).ticker = o.ticker ∧
    (update_order_after_fill o q).side = o.side ∧
    (update_order_after_fill o q).order_type = o.order_type ∧
    (update_order_after_fill o q).price = o.price ∧
    (update_order_after_fill o q).quantity = o.quantity ∧
    (update_order_after_fill o q).timestamp = o.timestamp ∧
    (update_order_after_fill o q).remaining_quantity = o.remaining_quantity - q := by
  rw [update_order_after_fill_def]
  by_cases h : o.remaining_quantity - q = 0 <;> simp [h]

theorem update_order_after_fill_status (o : Order) (q : Int) :
    (update_order_after_fill o q).status =
      if o.remaining_quantity - q = 0 then OrderStatus.FILLED else OrderStatus.PARTIAL := by
  rw [update_order_after_fill_def]

theorem matchLoop_inv : ∀ (fuel : Nat) (s : ExchangeState) (o : Order)
    (acc : List Trade) (s' : ExchangeState) (o' : Order) (tr : List Trade)
    (ex : ExitReason),
    matchLoop fuel s o acc = some (s', o', tr, ex) →
    (0 < o.remaining_quantity ∨
      (o.remaining_quantity = 0 ∧ o.status = OrderStatus.FILLED)) →
    o'.order_type = o.order_type ∧
      (0 < o'.remaining_quantity ∨
        (o'.remaining_quantity = 0 ∧ o'.status = OrderStatus.FILLED)) := by
  intro fuel
  induction fuel with
  | zero => intro s o acc s' o' tr ex h _; simp [matchLoop] at h
  | succ fuel ih =>
    intro s o acc s' o' tr ex h hI
    rw [matchLoop] at h
    by_cases hrem : 0 < o.remaining_quantity
    · rw [if_pos hrem] at h
      cases hst : matchStep s o with
      | noCandidate =>
        rw [hst] at h
        dsimp only at h
        simp only [Option.some.injEq, Prod.mk.injEq] at h
        obtain ⟨_, ho, _, _⟩ := h
        subst ho
        exact ⟨rfl, Or.inl hrem⟩
      | cashShort bo so =>
        rw [hst] at h
        dsimp only at h
        simp only [Option.some.injEq, Prod.mk.injEq] at h
        obtain ⟨_, ho, _, _⟩ := h
        subst ho
        exact ⟨rfl, Or.inl hrem⟩
      | failure => rw [hst] at h; dsimp only at h; simp at h
      | filled s1 o1 r1 t1 =>
        rw [hst] at h
        dsimp only at h
        obtain ⟨p, sx1, sx2, hg, hp, ht, hv, hc, hsh, ho1, hs1⟩ :=
          matchStep_filled_inv s o s1 o1 r1 t1 hst
        have htq : t1.quantity = min o.remaining_quantity r1.remaining_quantity := by
          rw [ht]
        have hI1 : 0 < o1.remaining_quantity ∨
            (o1.remaining_quantity = 0 ∧ o1.status = OrderStatus.FILLED) := by
          rw [ho1, update_order_after_fill_def]
          dsimp only
          by_cases hz : o.remaining_quantity - t1.quantity = 0
          · exact Or.inr ⟨hz, by rw [if_pos hz]⟩
          · left
            have hqle : t1.quantity ≤ o.remaining_quantity := by
              rw [htq]; exact min_le_left _ _
            omega
        have htype : o1.order_type = o.order_type := by
          rw [ho1, update_order_after_fill_def]
        obtain ⟨hty', hI'⟩ := ih s1 o1 (acc ++ [t1]) s' o' tr ex h hI1
        exact ⟨hty'.trans htype, hI'⟩
    · rw [if_neg hrem] at h
      simp only [Option.some.injEq, Prod.mk.injEq] at h
      obtain ⟨_, ho, _, _⟩ := h
      subst ho
      rcases hI with hpos | hfin
      · exact absurd hpos hrem
      · exact ⟨rfl, Or.inr hfin⟩

theorem matchLoop_trades_ne : ∀ (fuel : Nat) (s : ExchangeState) (o : Order)
    (acc : List Trade) (s' : ExchangeState) (o' : Order) (tr : List Trade)
    (ex : ExitReason),
    matchLoop fuel s o acc = some (s', o', tr, ex) →
    (∀ t ∈ acc, t.buyer_id ≠ t.seller_id) →
    ∀ t ∈ tr, t.buyer_id ≠ t.seller_id := by
  intro fuel
  induction fuel with
  | zero => intro s o acc s' o' tr ex h _; simp [matchLoop] at h
  | succ fuel ih =>
    intro s o acc s' o' tr ex h hacc
    rw [matchLoop] at h
    by_cases hrem : 0 < o.remaining_quantity
    · rw [if_pos hrem] at h
      cases hst : matchStep s o with
      | noCandidate =>
        rw [hst] at h
        dsimp only at h
        simp only [Option.some.injEq, Prod.mk.injEq] at h
        obtain ⟨_, _, htr, _⟩ := h
        subst htr
        exact hacc
      | cashShort bo so =>
        rw [hst] at h
        dsimp only at h
        simp only [Option.some.injEq, Prod.mk.injEq] at h
        obtain ⟨_, _, htr, _⟩ := h
        subst htr
        exact hacc
      | failure => rw [hst] at h; dsimp only at h; simp at h
      | filled s1 o1 r1 t1 =>
        rw [hst] at h
        dsimp only at h
        refine ih s1 o1 (acc ++ [t1]) s' o' tr ex h ?_
        intro t htm
        rcases List.mem_append.mp htm with hold | hnew
        · exact hacc t hold
        · rw [List.mem_singleton.mp hnew]
          exact matchStep_trade_ne s o s1 o1 r1 t1 hst
    · rw [if_neg hrem] at h
      simp only [Option.some.injEq, Prod.mk.injEq] at h
      obtain ⟨_, _, htr, _⟩ := h
      subst htr
      exact hacc

theorem matchLoop_limit_buy_no_cash_abort : ∀ (fuel : Nat) (s : ExchangeState)
    (o : Order) (acc : List Trade) (s' : ExchangeState) (o' : Order)
    (tr : List Trade) (ex : ExitReason) (L : Int) (b : Account),
    matchLoop fuel s o acc = some (s', o', tr, ex) →
    o.side = OrderSide.BUY → o.order_type = OrderType.LIMIT →
    o.price = some L → 0 < L →
    findAccount s.accounts o.account_id = some b →
    o.remaining_quantity * L ≤ b.cash_balance →
    (∀ x ∈ s.orders, 0 ≤ x.remaining_quantity) →
    ex ≠ ExitReason.cashShort := by
  intro fuel
  induction fuel with
  | zero => intro s o acc s' o' tr ex L b h _ _ _ _ _ _ _; simp [matchLoop] at h
  | succ fuel ih =>
    intro s o acc s' o' tr ex L b h hside hty hpr hLpos hb hcash hords
    rw [matchLoop] at h
    by_cases hrem : 0 < o.remaining_quantity
    · rw [if_pos hrem] at h
      cases hst : matchStep s o with
      | noCandidate =>
        rw [hst] at h
        dsimp only at h
        simp only [Option.some.injEq, Prod.mk.injEq] at h
        obtain ⟨_, _, _, hex⟩ := h
        rw [← hex]
        simp
      | cashShort bo so =>
        exfalso
        obtain ⟨r, p, hg, hp, hbo, _, hv⟩ := matchStep_cashShort_inv s o bo so hst
        rw [if_pos hside] at hbo
        rw [hbo] at hv
        rw [validate_buyer_cash, hb] at hv
        simp only [Option.map_some', Option.some.injEq,
          decide_eq_false_iff_not, not_le] at hv
        obtain ⟨hmem, hcand⟩ := get_matching_order_mem s o r hg
        obtain ⟨_, _, _, _, hlim⟩ := isCandidate_buy_facts o r hside hcand
        obtain ⟨L', p', hL', hp', hple⟩ := hlim hty
        rw [hpr] at hL'
        rw [hp] at hp'
        have heL : L' = L := (Option.some.inj hL').symm
        have hep : p' = p := (Option.some.inj hp').symm
        rw [heL, hep] at hple
        have hrrem : 0 ≤ r.remaining_quantity := hords r hmem
        have hq0 : 0 ≤ min o.remaining_quantity r.remaining_quantity :=
          le_min (le_of_lt hrem) hrrem
        have hqle : min o.remaining_quantity r.remaining_quantity ≤
            o.remaining_quantity := min_le_left _ _
        have hle : p * min o.remaining_quantity r.remaining_quantity ≤
            b.cash_balance := by
          calc p * min o.remaining_quantity r.remaining_quantity
              ≤ L * min o.remaining_quantity r.remaining_quantity :=
                mul_le_mul_of_nonneg_right hple hq0
            _ ≤ L * o.remaining_quantity :=
                mul_le_mul_of_nonneg_left hqle (le_of_lt hLpos)
            _ = o.remaining_quantity * L := mul_comm _ _
            _ ≤ b.cash_balance := hcash
        exact absurd hv (not_lt.mpr hle)
      | failure => rw [hst] at h; dsimp only at h; simp at h
      | filled s1 o1 r1 t1 =>
        rw [hst] at h
        dsimp only at h
        obtain ⟨p, sx1, sx2, hg, hp, ht, hv, hc, hsh, ho1, hs1⟩ :=
          matchStep_filled_inv s o s1 o1 r1 t1 hst
        have htq : t1.quantity = min o.remaining_quantity r1.remaining_quantity := by
          rw [ht]
        have htb : t1.buyer_id = o.account_id := by
          rw [ht]; dsimp only; rw [if_pos hside]
        have hts : t1.seller_id = r1.account_id := by
          rw [ht]; dsimp only; rw [if_pos hside]
        have hne := get_matching_order_account_ne s o r1 hg
        obtain ⟨hmem, hcand⟩ := get_matching_order_mem s o r1 hg
        obtain ⟨_, _, _, _, hlim⟩ := isCandidate_buy_facts o r1 hside hcand
        obtain ⟨L', p', hL', hp', hple⟩ := hlim hty
        rw [hpr] at hL'
        rw [hp] at hp'
        have heL : L' = L := (Option.some.inj hL').symm
        have hep : p' = p := (Option.some.inj hp').symm
        rw [heL, hep] at hple
        have hrrem : 0 ≤ r1.remaining_quantity := hords r1 hmem
        have hq0 : 0 ≤ min o.remaining_quantity r1.remaining_quantity :=
          le_min (le_of_lt hrem) hrrem
        have hqle : min o.remaining_quantity r1.remaining_quantity ≤
            o.remaining_quantity := min_le_left _ _
        rw [htb, hts, htq] at hc
        rw [htb, hts, htq] at hsh
        obtain ⟨_, _, hord1, _, _, _, hbuyer, _⟩ :=
          transfer_cash_inv s o.account_id r1.account_id _ sx1 hc
        have hb1 := hbuyer (fun e => hne e.symm) b hb
        obtain ⟨_, hacc2, hord2, _, _⟩ :=
          transfer_shares_inv sx1 o.ticker r1.account_id o.account_id _ sx2 hsh
        have haccs : s1.accounts = sx1.accounts := by
          rw [hs1]; exact hacc2
        have hside1 : o1.side = OrderSide.BUY := by
          rw [ho1, update_order_after_fill_def]; exact hside
        have hty1 : o1.order_type = OrderType.LIMIT := by
          rw [ho1, update_order_after_fill_def]; exact hty
        have hpr1 : o1.price = some L := by
          rw [ho1, update_order_after_fill_def]; exact hpr
        have hacc1 : o1.account_id = o.account_id := by
          rw [ho1, update_order_after_fill_def]
        have hrem1 : o1.remaining_quantity =
            o.remaining_quantity - min o.remaining_quantity r1.remaining_quantity := by
          rw [ho1, update_order_after_fill_def, ← htq]
        have hcash1 : o1.remaining_quantity * L ≤
            (b.cash_balance - p * min o.remaining_quantity r1.remaining_quantity) := by
          rw [hrem1]
          have h1 : p * min o.remaining_quantity r1.remaining_quantity ≤
              L * min o.remaining_quantity r1.remaining_quantity :=
            mul_le_mul_of_nonneg_right hple hq0
          have h2 : (o.remaining_quantity - min o.remaining_quantity r1.remaining_quantity) * L
              = o.remaining_quantity * L - L * min o.remaining_quantity r1.remaining_quantity := by
            ring
          rw [h2]
          have := hcash
          omega
        have hords1 : ∀ x ∈ s1.orders, 0 ≤ x.remaining_quantity := by
          intro x hx
          have hx' : x ∈ sx2.orders.map (fun y =>
              if y.id == r1.id then update_order_after_fill r1 t1.quantity else y) := by
            rw [hs1] at hx; exact hx
          obtain ⟨y, hy, hxy⟩ := List.mem_map.mp hx'
          rw [hord2, hord1] at hy
          by_cases hid : (y.id == r1.id) = true
          · rw [if_pos hid] at hxy
            rw [← hxy, update_order_after_fill_def]
            dsimp only
            have hqr : t1.quantity ≤ r1.remaining_quantity := by
              rw [htq]; exact min_le_right _ _
            omega
          · rw [if_neg hid] at hxy
            rw [← hxy]
            exact hords y hy
        refine ih s1 o1 (acc ++ [t1]) s' o' tr ex L
          ⟨b.id, b.api_key_hash,
            b.cash_balance - p * min o.remaining_quantity r1.remaining_quantity⟩
          h hside1 hty1 hpr1 hLpos ?_ ?_ hords1
        · rw [haccs, hacc1]
          exact hb1
        · exact hcash1
    · rw [if_neg hrem] at h
      simp only [Option.some.injEq, Prod.mk.injEq] at h
      obtain ⟨_, _, _, hex⟩ := h
      rw [← hex]
      simp

theorem isCandidate_iff (incoming c : Order) :
    isCandidate incoming c = true ↔ RestingQualifies incoming c := by
  cases hside : incoming.side with
  | BUY =>
    constructor
    · intro h
      obtain ⟨ht, hs, hst, ha, hlim⟩ := isCandidate_buy_facts incoming c hside h
      refine ⟨ht, ?_, hst, ha, ?_, ?_⟩
      · rw [hside]; exact hs
      · intro hcon; rw [hside] at hcon; simp at hcon
      · intro hl
        obtain ⟨L, p, hL, hp, hple⟩ := hlim hl
        refine ⟨L, p, hL, hp, fun _ => hple, fun hcon => ?_⟩
        rw [hside] at hcon; simp at hcon
    · intro hq
      obtain ⟨ht, hs, hst, ha, _, hlim⟩ := hq
      rw [isCandidate, hside]
      dsimp only
      simp only [Bool.and_eq_true, Bool.or_eq_true, beq_iff_eq, bne_iff_ne]
      refine ⟨⟨⟨⟨ht, ?_⟩, hst⟩, ha⟩, ?_⟩
      · rw [hside] at hs; exact hs
      · by_cases hl : incoming.order_type = OrderType.LIMIT
        · right
          obtain ⟨L, p, hL, hp, hb, _⟩ := hlim hl
          exact (priceLeB_true_iff _ _).mpr ⟨p, L, hp, hL, hb hside⟩
        · left; exact hl
  | SELL =>
    constructor
    · intro h
      obtain ⟨ht, hs, hst, hps, ha, hlim⟩ := isCandidate_sell_facts incoming c hside h
      refine ⟨ht, ?_, hst, ha, fun _ => hps, ?_⟩
      · rw [hside]; exact hs
      · intro hl
        obtain ⟨L, p, hL, hp, hple⟩ := hlim hl
        refine ⟨L, p, hL, hp, fun hcon => ?_, fun _ => hple⟩
        rw [hside] at hcon; simp at hcon
    · intro hq
      obtain ⟨ht, hs, hst, ha, hps, hlim⟩ := hq
      rw [isCandidate, hside]
      dsimp only
      simp only [Bool.and_eq_true, Bool.or_eq_true, beq_iff_eq, bne_iff_ne]
      refine ⟨⟨⟨⟨⟨ht, ?_⟩, hst⟩, hps hside⟩, ha⟩, ?_⟩
      · rw [hside] at hs; exact hs
      · by_cases hl : incoming.order_type = OrderType.LIMIT
        · right
          obtain ⟨L, p, hL, hp, _, hb⟩ := hlim hl
          exact (priceGeB_true_iff _ _).mpr ⟨p, L, hp, hL, hb hside⟩
        · left; exact hl

theorem buySearchKey_le_iff (r c : Order) (pr pc : Int)
    (hr : r.price = some pr) (hc : c.price = some pc) :
    buySearchKey r ≤ buySearchKey c ↔
      (pr < pc ∨ (pr = pc ∧ r.timestamp ≤ c.timestamp)) := by
  simp only [buySearchKey, hr, hc, priceBot]
  rw [Prod.Lex.le_iff]
  simp [WithBot.coe_lt_coe, WithBot.coe_eq_coe]

theorem sellSearchKey_le_iff (r c : Order) (pr pc : Int)
    (hr : r.price = some pr) (hc : c.price = some pc) :
    sellSearchKey r ≤ sellSearchKey c ↔
      (pc < pr ∨ (pr = pc ∧ r.timestamp ≤ c.timestamp)) := by
  simp only [sellSearchKey, hr, hc, priceBot]
  rw [Prod.Lex.le_iff]
  constructor
  · rintro (hlt | ⟨heq, hts⟩)
    · left
      exact WithBot.coe_lt_coe.mp (OrderDual.toDual_lt_toDual.mp hlt)
    · right
      have := OrderDual.toDual_inj.mp heq
      exact ⟨WithBot.coe_eq_coe.mp this, hts⟩
  · rintro (hlt | ⟨heq, hts⟩)
    · left
      exact OrderDual.toDual_lt_toDual.mpr (WithBot.coe_lt_coe.mpr hlt)
    · right
      exact ⟨congrArg OrderDual.toDual (congrArg _ heq), hts⟩

theorem tickerShareSum_nil (t : String) : tickerShareSum [] t = 0 := rfl

theorem tickerShareSum_append (l1 l2 : List Holding) (t : String) :
    tickerShareSum (l1 ++ l2) t = tickerShareSum l1 t + tickerShareSum l2 t := by
  simp [tickerShareSum, List.filter_append]

theorem tickerShareSum_zero (t : String) :
    ∀ l, (∀ x ∈ l, x.ticker ≠ t) → tickerShareSum l t = 0 := by
  intro l
  induction l with
  | nil => intro _; rfl
  | cons hd rest ih =>
    intro h
    rw [tickerShareSum_cons, if_neg (h hd (List.mem_cons_self _ _)), ih, add_zero]
    intro x hx
    exact h x (List.mem_cons_of_mem _ hx)

theorem create_company_inv (s : ExchangeState) (data : CompanyCreate)
    (hk oid : String) (ts : Nat) (s' : ExchangeState)
    (hcreate : create_company s data hk oid ts = some s') :
    s'.accounts = s.accounts ++
      [{ id := data.ticker.toUpper ++ "_TREASURY", api_key_hash := hk, cash_balance := 0 }] ∧
    s'.companies = s.companies ++
      [{ ticker := data.ticker.toUpper, name := data.name,
         total_shares := data.total_shares, float_shares := data.float_shares }] ∧
    (0 < data.float_shares →
      s'.holdings = s.holdings ++
        [{ account_id := data.ticker.toUpper ++ "_TREASURY",
           ticker := data.ticker.toUpper, quantity := data.float_shares,
           cost_basis := 0 }] ∧
      s'.orders = s.orders ++
        [{ id := oid, account_id := data.ticker.toUpper ++ "_TREASURY",
           ticker := data.ticker.toUpper, side := OrderSide.SELL,
           order_type := OrderType.LIMIT, price := data.ipo_price,
           quantity := data.float_shares, remaining_quantity := data.float_shares,
           status := OrderStatus.OPEN, timestamp := ts }]) ∧
    (¬ 0 < data.float_shares → s'.holdings = s.holdings ∧ s'.orders = s.orders) ∧
    s'.trades = s.trades := by
  rw [create_company] at hcreate
  dsimp only at hcreate
  by_cases h1 : ((findCompany s.companies data.ticker.toUpper).isSome = true)
  · rw [if_pos h1] at hcreate; simp at hcreate
  · rw [if_neg h1] at hcreate
    by_cases h2 :
        ((findAccount s.accounts (data.ticker.toUpper ++ "_TREASURY")).isSome = true)
    · rw [if_pos h2] at hcreate; simp at hcreate
    · rw [if_neg h2] at hcreate
      simp only [Option.some.injEq] at hcreate
      subst hcreate
      refine ⟨rfl, rfl, ?_, ?_, rfl⟩
      · intro hf
        exact ⟨by rw [if_pos hf, if_pos hf], by rw [if_pos hf, if_pos hf]⟩
      · intro hnf
        exact ⟨by rw [if_neg hnf, if_neg hnf], by rw [if_neg hnf, if_neg hnf]⟩

/-! Claim theorems. -/

set_option maxRecDepth 4000 in
/-- C1. The claim (with the spec and the repository's own cost-basis tests)
says a fill at price p and quantity q adds p·q to the buyer's holding
cost_basis (creating the row with cost_basis p·q) and subtracts avg·q from
the seller's. The code does neither: on the cost-basis test fixture (seller
holds 1000 TECH at cost basis 50000.00, resting SELL 50 @ 100.00, buyer
with 10000.00 cash), the fill of the matching BUY LIMIT 50 @ 100.00 creates
the buyer's holding with cost_basis 0.00 (not 5000.00) and leaves the
seller's cost_basis at 50000.00 (not 47500.00): `_transfer_shares` never
touches cost_basis. -/
theorem cost_basis_not_updated_on_fill :
    matchStep demo_state demo_buy =
      StepOut.filled demo_fill_state demo_fill_order demo_fill_resting demo_fill_trade ∧
    demo_fill_trade.price = 10000 ∧
    demo_fill_trade.quantity = 50 ∧
    findHolding demo_fill_state.holdings "B" "TECH" =
      some { account_id := "B", ticker := "TECH", quantity := 50, cost_basis := 0 } ∧
    findHolding demo_fill_state.holdings "S" "TECH" =
      some { account_id := "S", ticker := "TECH", quantity := 950, cost_basis := 5000000 } := by
  refine ⟨?_, ?_, ?_, ?_, ?_⟩ <;> with_unfolding_all rfl

/-- C10. `create_company` always creates a `<TICKER>_TREASURY` account with
cash 0; when float_shares > 0 it additionally seeds a treasury holding of
exactly the float and places an OPEN SELL LIMIT order for the whole float at
the IPO price from the treasury; when float_shares = 0 neither a holding nor
an IPO order is created. -/
theorem create_company_treasury_ipo (s : ExchangeState) (data : CompanyCreate)
    (hk oid : String) (ts : Nat) (s' : ExchangeState)
    (hcreate : create_company s data hk oid ts = some s') :
    s'.accounts = s.accounts ++
      [{ id := data.ticker.toUpper ++ "_TREASURY", api_key_hash := hk, cash_balance := 0 }] ∧
    s'.companies = s.companies ++
      [{ ticker := data.ticker.toUpper, name := data.name,
         total_shares := data.total_shares, float_shares := data.float_shares }] ∧
    (0 < data.float_shares →
      s'.holdings = s.holdings ++
        [{ account_id := data.ticker.toUpper ++ "_TREASURY",
           ticker := data.ticker.toUpper, quantity := data.float_shares,
           cost_basis := 0 }] ∧
      s'.orders = s.orders ++
        [{ id := oid, account_id := data.ticker.toUpper ++ "_TREASURY",
           ticker := data.ticker.toUpper, side := OrderSide.SELL,
           order_type := OrderType.LIMIT, price := data.ipo_price,
           quantity := data.float_shares, remaining_quantity := data.float_shares,
           status := OrderStatus.OPEN, timestamp := ts }]) ∧
    (data.float_shares = 0 → s'.holdings = s.holdings ∧ s'.orders = s.orders) ∧
    s'.trades = s.trades := by
  obtain ⟨ha, hc, hpos, hzero, htr⟩ := create_company_inv s data hk oid ts s' hcreate
  refine ⟨ha, hc, hpos, ?_, htr⟩
  intro hf0
  exact hzero (by omega)

/-- Witness for C10: creating "tech" (uppercased to TECH) with a float of
500 at IPO price 100.00 yields the treasury account, holding and IPO order. -/
theorem create_company_treasury_ipo_witness :
    create_company cw_s0 cw_data "h" "ipo1" 1 = some cw_state ∧
    0 < cw_data.float_shares ∧
    cw_state.accounts = cw_s0.accounts ++
      [{ id := cw_data.ticker.toUpper ++ "_TREASURY", api_key_hash := "h",
         cash_balance := 0 }] ∧
    cw_state.orders = cw_s0.orders ++
      [{ id := "ipo1", account_id := cw_data.ticker.toUpper ++ "_TREASURY",
         ticker := cw_data.ticker.toUpper, side := OrderSide.SELL,
         order_type := OrderType.LIMIT, price := cw_data.ipo_price,
         quantity := cw_data.float_shares, remaining_quantity := cw_data.float_shares,
         status := OrderStatus.OPEN, timestamp := 1 }] := by
  have h := create_company_treasury_ipo cw_s0 cw_data "h" "ipo1" 1 cw_state
    (by with_unfolding_all rfl)
  exact ⟨by with_unfolding_all rfl, by with_unfolding_all decide, h.1,
    (h.2.2.1 (by with_unfolding_all decide)).2⟩


/-- C3. Every fill at execution price p and quantity q changes exactly two
cash balances: the buyer's falls by exactly p·q, the seller's rises by
exactly p·q, every other account is untouched, and the total cash over all
accounts is conserved by the settlement. -/
theorem fill_cash_conservation (s : ExchangeState) (o : Order) (s' : ExchangeState)
    (o' r : Order) (t : Trade) (b sl : Account)
    (hstep : matchStep s o = StepOut.filled s' o' r t)
    (hb : findAccount s.accounts t.buyer_id = some b)
    (hsl : findAccount s.accounts t.seller_id = some sl) :
    findAccount s'.accounts t.buyer_id =
      some { b with cash_balance := b.cash_balance - t.price * t.quantity } ∧
    findAccount s'.accounts t.seller_id =
      some { sl with cash_balance := sl.cash_balance + t.price * t.quantity } ∧
    (∀ aid, aid ≠ t.buyer_id → aid ≠ t.seller_id →
      findAccount s'.accounts aid = findAccount s.accounts aid) ∧
    cashSum s'.accounts = cashSum s.accounts := by
  obtain ⟨p, s1, s2, hg, hp, ht, hv, hc, hsh, ho_fin, hs_fin⟩ :=
    matchStep_filled_inv s o s' o' r t hstep
  have hne : t.buyer_id ≠ t.seller_id := matchStep_trade_ne s o s' o' r t hstep
  have htp : t.price = p := by rw [ht]
  obtain ⟨_, _, _, _, hsum1, hother1, hbuy1, hsell1⟩ :=
    transfer_cash_inv s t.buyer_id t.seller_id _ s1 hc
  obtain ⟨_, hacc2, _, _, _⟩ :=
    transfer_shares_inv s1 o.ticker t.seller_id t.buyer_id _ s2 hsh
  have haccs : s'.accounts = s1.accounts := by rw [hs_fin]; exact hacc2
  rw [haccs, htp]
  exact ⟨hbuy1 hne b hb, hsell1 (fun e => hne e.symm) sl hsl,
    fun aid h1 h2 => hother1 aid h1 h2, hsum1⟩

/-- Witness for C3: the demo fill (50 shares at 100.00) moves exactly
5000.00 from the buyer to the seller and conserves total cash. -/
theorem fill_cash_conservation_witness :
    matchStep demo_state demo_buy =
      StepOut.filled demo_fill_state demo_fill_order demo_fill_resting demo_fill_trade ∧
    findAccount demo_state.accounts demo_fill_trade.buyer_id = some demo_buyer ∧
    findAccount demo_state.accounts demo_fill_trade.seller_id = some demo_seller ∧
    findAccount demo_fill_state.accounts demo_fill_trade.buyer_id =
      some { demo_buyer with cash_balance :=
        demo_buyer.cash_balance - demo_fill_trade.price * demo_fill_trade.quantity } ∧
    cashSum demo_fill_state.accounts = cashSum demo_state.accounts := by
  have h := fill_cash_conservation demo_state demo_buy demo_fill_state demo_fill_order
    demo_fill_resting demo_fill_trade demo_buyer demo_seller
    (by with_unfolding_all rfl) (by with_unfolding_all rfl) (by with_unfolding_all rfl)
  exact ⟨by with_unfolding_all rfl, by with_unfolding_all rfl, by with_unfolding_all rfl,
    h.1, h.2.2.2⟩

/-- C4. Share conservation: company creation seeds exactly float_shares of
the new ticker into holdings (and leaves every other ticker's total alone),
and every fill moves shares between the seller's and the buyer's holding
rows without changing any ticker's total held quantity. -/
theorem share_conservation (sc : ExchangeState) (data : CompanyCreate)
    (hk oid : String) (ts : Nat) (sc' : ExchangeState)
    (hfloat : 0 ≤ data.float_shares)
    (hnew : ∀ h ∈ sc.holdings, h.ticker ≠ data.ticker.toUpper)
    (hcreate : create_company sc data hk oid ts = some sc')
    (sm : ExchangeState) (om : Order) (sm' : ExchangeState) (om' rm : Order)
    (tm : Trade) (hstep : matchStep sm om = StepOut.filled sm' om' rm tm) :
    tickerShareSum sc'.holdings data.ticker.toUpper = data.float_shares ∧
    (∀ tk, tk ≠ data.ticker.toUpper →
      tickerShareSum sc'.holdings tk = tickerShareSum sc.holdings tk) ∧
    (∀ tk, tickerShareSum sm'.holdings tk = tickerShareSum sm.holdings tk) := by
  obtain ⟨_, _, hposc, hzeroc, _⟩ := create_company_inv sc data hk oid ts sc' hcreate
  have hscz : tickerShareSum sc.holdings data.ticker.toUpper = 0 :=
    tickerShareSum_zero data.ticker.toUpper sc.holdings hnew
  have hcreate_parts : tickerShareSum sc'.holdings data.ticker.toUpper = data.float_shares ∧
      (∀ tk, tk ≠ data.ticker.toUpper →
        tickerShareSum sc'.holdings tk = tickerShareSum sc.holdings tk) := by
    by_cases hf : 0 < data.float_shares
    · obtain ⟨hh, _⟩ := hposc hf
      constructor
      · rw [hh, tickerShareSum_append, hscz, tickerShareSum_cons, tickerShareSum_nil,
          if_pos rfl]
        ring
      · intro tk htk
        rw [hh, tickerShareSum_append, tickerShareSum_cons, tickerShareSum_nil,
          if_neg (fun e => htk e.symm)]
        ring
    · obtain ⟨hh, _⟩ := hzeroc hf
      constructor
      · rw [hh, hscz]
        omega
      · intro tk _
        rw [hh]
  refine ⟨hcreate_parts.1, hcreate_parts.2, ?_⟩
  intro tk
  obtain ⟨p, s1, s2, hg, hp, ht, hv, hc, hsh, ho_fin, hs_fin⟩ :=
    matchStep_filled_inv sm om sm' om' rm tm hstep
  obtain ⟨_, hhold1, _, _, _, _, _, _⟩ :=
    transfer_cash_inv sm tm.buyer_id tm.seller_id _ s1 hc
  obtain ⟨_, _, _, _, hsum2⟩ :=
    transfer_shares_inv s1 om.ticker tm.seller_id tm.buyer_id _ s2 hsh
  have hh' : sm'.holdings = s2.holdings := by rw [hs_fin]
  rw [hh', hsum2 tk, hhold1]

/-- Witness for C4: creating TECH with a float of 500 yields a TECH holding
total of 500, and the demo fill leaves the TECH holding total unchanged. -/
theorem share_conservation_witness :
    0 ≤ cw_data.float_shares ∧
    create_company cw_s0 cw_data "h" "ipo1" 1 = some cw_state ∧
    matchStep demo_state demo_buy =
      StepOut.filled demo_fill_state demo_fill_order demo_fill_resting demo_fill_trade ∧
    tickerShareSum cw_state.holdings cw_data.ticker.toUpper = cw_data.float_shares ∧
    tickerShareSum demo_fill_state.holdings "TECH" =
      tickerShareSum demo_state.holdings "TECH" := by
  have h := share_conservation cw_s0 cw_data "h" "ipo1" 1 cw_state
    (by with_unfolding_all decide) (by intro x hx; simp [cw_s0] at hx)
    (by with_unfolding_all rfl)
    demo_state demo_buy demo_fill_state demo_fill_order demo_fill_resting demo_fill_trade
    (by with_unfolding_all rfl)
  exact ⟨by with_unfolding_all decide, by with_unfolding_all rfl,
    by with_unfolding_all rfl, h.1, h.2.2 "TECH"⟩

/-- C5. Self-trade prevention: no trade produced by a matching pass has
buyer_id equal to seller_id, and a self-owned candidate never blocks
matching — whenever any qualifying resting order of another account exists,
the engine selects a resting order, and it belongs to another account. -/
theorem self_trade_prevention (s : ExchangeState) (o : Order) (s' : ExchangeState)
    (o' : Order) (tr : List Trade) (ex : ExitReason)
    (hrun : match_order s o = some (s', o', tr, ex)) :
    (∀ t ∈ tr, t.buyer_id ≠ t.seller_id) ∧
    (∀ c ∈ s.orders, RestingQualifies o c →
      ∃ r, get_matching_order s o = some r ∧ r.account_id ≠ o.account_id) := by
  constructor
  · rw [match_order] at hrun
    cases hloop : matchLoop (o.remaining_quantity.toNat + s.orders.length + 1) s o [] with
    | none => rw [hloop] at hrun; simp at hrun
    | some quad =>
      obtain ⟨s0, o0, tr0, ex0⟩ := quad
      rw [hloop] at hrun
      dsimp only at hrun
      simp only [Option.some.injEq, Prod.mk.injEq] at hrun
      obtain ⟨_, _, htr0, _⟩ := hrun
      rw [← htr0]
      exact matchLoop_trades_ne _ s o [] s0 o0 tr0 ex0 hloop (by simp)
  · intro c hc hq
    have hcand : isCandidate o c = true := (isCandidate_iff o c).mpr hq
    obtain ⟨r, hr⟩ := get_matching_order_isSome s o c hc hcand
    exact ⟨r, hr, get_matching_order_account_ne s o r hr⟩

/-- Witness for C5: the demo LIMIT buy's pass produces one trade between
distinct accounts; the qualifying resting sell is matched. -/
theorem self_trade_prevention_witness :
    match_order demo_state demo_buy =
      some (demo_limit_state, demo_limit_order, demo_limit_trades, demo_limit_exit) ∧
    (∀ t ∈ demo_limit_trades, t.buyer_id ≠ t.seller_id) ∧
    demo_limit_trades.length = 1 := by
  have h := self_trade_prevention demo_state demo_buy demo_limit_state demo_limit_order
    demo_limit_trades demo_limit_exit (by with_unfolding_all rfl)
  exact ⟨by with_unfolding_all rfl, h.1, by with_unfolding_all rfl⟩

/-- C6. MARKET immediacy: after the matching pass of a MARKET order, the
order is FILLED with zero remaining quantity or CANCELLED with positive
remaining quantity; it never remains OPEN or PARTIAL and so never rests. -/
theorem market_order_ioc (s : ExchangeState) (o : Order) (s' : ExchangeState)
    (o' : Order) (tr : List Trade) (ex : ExitReason)
    (hty : o.order_type = OrderType.MARKET) (hrem : 0 < o.remaining_quantity)
    (hrun : match_order s o = some (s', o', tr, ex)) :
    (o'.remaining_quantity = 0 ∧ o'.status = OrderStatus.FILLED) ∨
    (0 < o'.remaining_quantity ∧ o'.status = OrderStatus.CANCELLED) := by
  rw [match_order] at hrun
  cases hloop : matchLoop (o.remaining_quantity.toNat + s.orders.length + 1) s o [] with
  | none => rw [hloop] at hrun; simp at hrun
  | some quad =>
    obtain ⟨s0, o0, tr0, ex0⟩ := quad
    rw [hloop] at hrun
    dsimp only at hrun
    simp only [Option.some.injEq, Prod.mk.injEq] at hrun
    obtain ⟨_, ho', _, _⟩ := hrun
    obtain ⟨htyp0, hI0⟩ := matchLoop_inv _ s o [] s0 o0 tr0 ex0 hloop (Or.inl hrem)
    rcases hI0 with hpos | hfin
    · right
      have hcond : o0.order_type = OrderType.MARKET ∧ 0 < o0.remaining_quantity :=
        ⟨htyp0.trans hty, hpos⟩
      rw [← ho', if_pos hcond]
      exact ⟨hpos, rfl⟩
    · left
      have hcond : ¬(o0.order_type = OrderType.MARKET ∧ 0 < o0.remaining_quantity) := by
        rintro ⟨_, hp⟩
        omega
      rw [← ho', if_neg hcond]
      exact hfin

/-- Witness for C6: the demo MARKET buy of 100 against a book holding only
50 ends CANCELLED with remaining 50 (never OPEN or PARTIAL). -/
theorem market_order_ioc_witness :
    demo_market.order_type = OrderType.MARKET ∧
    0 < demo_market.remaining_quantity ∧
    match_order demo_state demo_market =
      some (demo_market_state, demo_market_order, demo_market_trades, demo_market_exit) ∧
    ((demo_market_order.remaining_quantity = 0 ∧
        demo_market_order.status = OrderStatus.FILLED) ∨
      (0 < demo_market_order.remaining_quantity ∧
        demo_market_order.status = OrderStatus.CANCELLED)) := by
  have h := market_order_ioc demo_state demo_market demo_market_state demo_market_order
    demo_market_trades demo_market_exit rfl (by decide) (by with_unfolding_all rfl)
  exact ⟨rfl, by decide, by with_unfolding_all rfl, h⟩


/-- C2. Price-time priority and price improvement: when the engine selects
a resting order for an incoming order (over a book whose resting orders all
carry prices), the selection is an OPEN/PARTIAL opposite-side order on the
same ticker of another account within the incoming LIMIT's price bound;
among all such qualifying orders it has the best price (lowest for an
incoming BUY, highest for an incoming SELL) and, at equal price, an
earliest timestamp; and the trade of the resulting fill executes at the
resting order's price. -/
theorem matching_price_time_priority (s : ExchangeState) (incoming r : Order)
    (hpriced : ∀ x ∈ s.orders,
      (x.status = OrderStatus.OPEN ∨ x.status = OrderStatus.PARTIAL) →
      x.price.isSome = true)
    (hr : get_matching_order s incoming = some r) :
    r ∈ s.orders ∧
    RestingQualifies incoming r ∧
    (∀ c ∈ s.orders, RestingQualifies incoming c →
      ∀ pr pc, r.price = some pr → c.price = some pc →
        (incoming.side = OrderSide.BUY →
          pr < pc ∨ (pr = pc ∧ r.timestamp ≤ c.timestamp)) ∧
        (incoming.side = OrderSide.SELL →
          pc < pr ∨ (pr = pc ∧ r.timestamp ≤ c.timestamp))) ∧
    (∀ s' o' t, matchStep s incoming = StepOut.filled s' o' r t →
      r.price = some t.price) := by
  obtain ⟨hmem, hcand⟩ := get_matching_order_mem s incoming r hr
  refine ⟨hmem, (isCandidate_iff incoming r).mp hcand, ?_, ?_⟩
  · intro c hcm hq pr pc hpr hpc
    have hccand : isCandidate incoming c = true := (isCandidate_iff incoming c).mpr hq
    have hcf : c ∈ s.orders.filter (isCandidate incoming) :=
      List.mem_filter.mpr ⟨hcm, hccand⟩
    constructor
    · intro hside
      rw [get_matching_order, hside] at hr
      dsimp only at hr
      have hmin := selectBy_min buyLtB buySearchKey buyLtB_iff _ r hr c hcf
      exact (buySearchKey_le_iff r c pr pc hpr hpc).mp hmin
    · intro hside
      rw [get_matching_order, hside] at hr
      dsimp only at hr
      have hmin := selectBy_min sellLtB sellSearchKey sellLtB_iff _ r hr c hcf
      exact (sellSearchKey_le_iff r c pr pc hpr hpc).mp hmin
  · intro s' o' t hstep
    obtain ⟨p, s1, s2, hg, hp, ht, _⟩ := matchStep_filled_inv s incoming s' o' r t hstep
    have htp : t.price = p := by rw [ht]
    rw [htp]
    exact hp

set_option maxRecDepth 2000 in
/-- Witness for C2: on the demo book the engine selects the resting sell,
which qualifies, and the demo fill executes at its price. -/
theorem matching_price_time_priority_witness :
    get_matching_order demo_state demo_buy = some demo_fill_resting ∧
    demo_fill_resting = demo_resting ∧
    demo_fill_resting ∈ demo_state.orders ∧
    RestingQualifies demo_buy demo_fill_resting ∧
    demo_fill_resting.price = some demo_fill_trade.price ∧
    ((10000:Int) < 10000 ∨
      ((10000:Int) = 10000 ∧
        demo_fill_resting.timestamp ≤ demo_fill_resting.timestamp)) := by
  have h := matching_price_time_priority demo_state demo_buy demo_fill_resting
    (by with_unfolding_all decide) (by with_unfolding_all rfl)
  refine ⟨by with_unfolding_all rfl, by with_unfolding_all rfl, h.1, h.2.1, ?_, ?_⟩
  · exact h.2.2.2 demo_fill_state demo_fill_order demo_fill_trade
      (by with_unfolding_all rfl)
  · exact (h.2.2.1 demo_fill_resting h.1 h.2.1 10000 10000
      (by with_unfolding_all rfl) (by with_unfolding_all rfl)).1 rfl

set_option maxRecDepth 2000 in
/-- C8 counterexample. Two qualifying resting SELL orders tie at price
50.00 and timestamp 7; the first table row carries id "b", the second id
"a". The engine selects the row with id "b" although "a" is
lexicographically smaller, refuting the claimed id tie-break. -/
theorem tie_break_ignores_order_id :
    tie_state.orders.map (fun o => (o.id, o.price, o.timestamp)) =
      [("b", some 5000, 7), ("a", some 5000, 7)] ∧
    tie_state.orders.all (isCandidate tie_incoming) = true ∧
    (get_matching_order tie_state tie_incoming).map (fun o => o.id) = some "b" ∧
    ("a" : String) < "b" := by
  exact ⟨by with_unfolding_all rfl, by with_unfolding_all decide,
    by with_unfolding_all rfl, by with_unfolding_all decide⟩

/-- C8 amended. At equal price and equal timestamp the engine's ORDER BY
carries no order-id key: the selected resting order is the first row in
table order among the qualifying candidates attaining the minimal
(price, time) key — every candidate row preceding it differs in price or
timestamp — independently of order ids. -/
theorem tie_break_row_order (s : ExchangeState) (incoming r : Order)
    (hr : get_matching_order s incoming = some r) :
    isCandidate incoming r = true ∧ r ∈ s.orders ∧
    ∃ l₁ l₂, s.orders.filter (isCandidate incoming) = l₁ ++ r :: l₂ ∧
      ∀ c ∈ l₁, ¬(c.price = r.price ∧ c.timestamp = r.timestamp) := by
  obtain ⟨hmem, hcand⟩ := get_matching_order_mem s incoming r hr
  refine ⟨hcand, hmem, ?_⟩
  rw [get_matching_order] at hr
  cases hside : incoming.side with
  | BUY =>
    rw [hside] at hr
    dsimp only at hr
    obtain ⟨l₁, l₂, heq, hfirst⟩ := selectBy_first buyLtB buySearchKey buyLtB_iff _ r hr
    refine ⟨l₁, l₂, heq, ?_⟩
    rintro c hcl ⟨hp, ht⟩
    have hkey : buySearchKey r = buySearchKey c := by
      rw [buySearchKey, buySearchKey, hp, ht]
    exact absurd (hfirst c hcl) (by rw [hkey]; exact lt_irrefl _)
  | SELL =>
    rw [hside] at hr
    dsimp only at hr
    obtain ⟨l₁, l₂, heq, hfirst⟩ := selectBy_first sellLtB sellSearchKey sellLtB_iff _ r hr
    refine ⟨l₁, l₂, heq, ?_⟩
    rintro c hcl ⟨hp, ht⟩
    have hkey : sellSearchKey r = sellSearchKey c := by
      rw [sellSearchKey, sellSearchKey, hp, ht]
    exact absurd (hfirst c hcl) (by rw [hkey]; exact lt_irrefl _)

set_option maxRecDepth 2000 in
/-- Witness for C8's amended claim: on the tied book the selected order is
the first row (id "b"), and no candidate before it ties its key. -/
theorem tie_break_row_order_witness :
    get_matching_order tie_state tie_incoming = some tie_order_b ∧
    isCandidate tie_incoming tie_order_b = true ∧
    tie_order_b ∈ tie_state.orders ∧
    (∃ l₁ l₂, tie_state.orders.filter (isCandidate tie_incoming) =
        l₁ ++ tie_order_b :: l₂ ∧
      ∀ c ∈ l₁, ¬(c.price = tie_order_b.price ∧ c.timestamp = tie_order_b.timestamp)) := by
  have h := tie_break_row_order tie_state tie_incoming tie_order_b
    (by with_unfolding_all rfl)
  exact ⟨by with_unfolding_all rfl, h.1, h.2.1, h.2.2⟩

/-- C9. Validator rejections carry the structured reason matching the
failed check (unknown ticker; LIMIT without a price; insufficient free
shares on SELL; insufficient free cash on BUY LIMIT), and a rejected
submission commits nothing: the store the endpoint returns is the input
store, with no order row, no trade and no cash or holding change. -/
theorem validator_rejection_no_mutation (s : ExchangeState) (aid : String)
    (data : OrderCreate) (oid : String) (ts : Nat) (account : Account)
    (hacct : findAccount s.accounts aid = some account) :
    (findCompany s.companies data.ticker.toUpper = none →
      place_order s aid data oid ts = PlaceResult.rejected RejectReason.unknown_ticker) ∧
    (∀ c, findCompany s.companies data.ticker.toUpper = some c →
      data.order_type = OrderType.LIMIT → data.price = none →
      place_order s aid data oid ts = PlaceResult.rejected RejectReason.missing_price) ∧
    (∀ c, findCompany s.companies data.ticker.toUpper = some c →
      ¬(data.order_type = OrderType.LIMIT ∧ data.price = none) →
      data.side = OrderSide.SELL →
      available_shares s aid data.ticker.toUpper < data.quantity →
      place_order s aid data oid ts = PlaceResult.rejected
        (RejectReason.insufficient_shares (available_shares s aid data.ticker.toUpper)
          data.quantity)) ∧
    (∀ c, findCompany s.companies data.ticker.toUpper = some c →
      ¬(data.order_type = OrderType.LIMIT ∧ data.price = none) →
      data.side = OrderSide.BUY → data.order_type = OrderType.LIMIT →
      available_cash account s.orders < data.price.getD 0 * data.quantity →
      place_order s aid data oid ts = PlaceResult.rejected
        (RejectReason.insufficient_funds (available_cash account s.orders)
          (data.price.getD 0 * data.quantity))) ∧
    (∀ rr, place_order s aid data oid ts = PlaceResult.rejected rr →
      submit_order s aid data oid ts = (s, PlaceResult.rejected rr)) := by
  refine ⟨?_, ?_, ?_, ?_, ?_⟩
  · intro hcomp
    rw [place_order, hacct]
    dsimp only
    rw [hcomp]
  · intro c hcomp hl hp
    rw [place_order, hacct]
    dsimp only
    rw [hcomp]
    dsimp only
    rw [if_pos ⟨hl, hp⟩]
  · intro c hcomp hnl hside hshort
    rw [place_order, hacct]
    dsimp only
    rw [hcomp]
    dsimp only
    rw [if_neg hnl, if_pos ⟨hside, hshort⟩]
  · intro c hcomp hnl hside hl hshort
    rw [place_order, hacct]
    dsimp only
    rw [hcomp]
    dsimp only
    rw [if_neg hnl]
    have hnsell : ¬(data.side = OrderSide.SELL ∧
        available_shares s aid data.ticker.toUpper < data.quantity) := by
      rintro ⟨hs, _⟩
      rw [hside] at hs
      exact OrderSide.noConfusion hs
    rw [if_neg hnsell, if_pos ⟨hside, hl, hshort⟩]
  · intro rr hrr
    rw [submit_order, hrr]

/-- Witness for C9: submitting for the unknown ticker NOPE is rejected
with the unknown-ticker reason and leaves the store exactly as it was. -/
theorem validator_rejection_no_mutation_witness :
    findAccount demo_state.accounts "B" = some demo_buyer ∧
    findCompany demo_state.companies rj_data.ticker.toUpper = none ∧
    place_order demo_state "B" rj_data "o9" 9 =
      PlaceResult.rejected RejectReason.unknown_ticker ∧
    submit_order demo_state "B" rj_data "o9" 9 =
      (demo_state, PlaceResult.rejected RejectReason.unknown_ticker) := by
  have h := validator_rejection_no_mutation demo_state "B" rj_data "o9" 9 demo_buyer
    (by with_unfolding_all rfl)
  have h1 := h.1 (by with_unfolding_all rfl)
  exact ⟨by with_unfolding_all rfl, by with_unfolding_all rfl, h1, h.2.2.2.2 _ h1⟩

/-- C7 counterexample. A reachable trace of validator-accepted submissions
in which the mid-match cash-short break fires although the buy side of the
candidate fill is a resting LIMIT order and the incoming order is a LIMIT
SELL: A rests BUY LIMIT 1 TECH @ 100.00 with exactly 100.00 cash, C rests
SELL LIMIT 1 GOLD @ 60.00, A's BUY MARKET 1 GOLD (no validator cash check)
fills at 60.00 draining A to 40.00, and B's SELL LIMIT 1 TECH @ 100.00
then meets A's resting LIMIT BUY with A's cash 40.00 < 100.00. -/
theorem limit_buy_side_cash_abort_reachable :
    (isAccepted cs_r1 && isAccepted cs_r2 && isAccepted cs_r3) = true ∧
    exitOf cs_r4 = some ExitReason.cashShort ∧
    tradesOf cs_r4 = some [] ∧
    (cashShortBuySide (matchStep cs_s3 cs_o4)).map (fun o => (o.order_type, o.id)) =
      some (OrderType.LIMIT, "o1") ∧
    cs_o4.order_type = OrderType.LIMIT ∧ cs_o4.side = OrderSide.SELL := by
  refine ⟨?_, ?_, ?_, ?_, rfl, rfl⟩ <;> with_unfolding_all decide

/-- C7 amended. The cash-short break cannot fire within the matching pass
of an incoming LIMIT BUY whose owner's cash covers remaining × limit (as
the validator guarantees at acceptance); it can fire when the buy side is
a resting LIMIT BUY whose owner's cash was later drained by MARKET BUY
fills, which the validator never cash-checks. -/
theorem fresh_limit_buy_no_cash_abort (s : ExchangeState) (o : Order)
    (s' : ExchangeState) (o' : Order) (tr : List Trade) (ex : ExitReason)
    (L : Int) (b : Account)
    (hside : o.side = OrderSide.BUY) (hty : o.order_type = OrderType.LIMIT)
    (hpr : o.price = some L) (hLpos : 0 < L)
    (hb : findAccount s.accounts o.account_id = some b)
    (hcash : o.remaining_quantity * L ≤ b.cash_balance)
    (hords : ∀ x ∈ s.orders, 0 ≤ x.remaining_quantity)
    (hrun : match_order s o = some (s', o', tr, ex)) :
    ex ≠ ExitReason.cashShort := by
  rw [match_order] at hrun
  cases hloop : matchLoop (o.remaining_quantity.toNat + s.orders.length + 1) s o [] with
  | none => rw [hloop] at hrun; simp at hrun
  | some quad =>
    obtain ⟨s0, o0, tr0, ex0⟩ := quad
    rw [hloop] at hrun
    dsimp only at hrun
    simp only [Option.some.injEq, Prod.mk.injEq] at hrun
    obtain ⟨_, _, _, hex⟩ := hrun
    rw [← hex]
    exact matchLoop_limit_buy_no_cash_abort _ s o [] s0 o0 tr0 ex0 L b hloop
      hside hty hpr hLpos hb hcash hords

/-- Witness for C7's amended claim: the demo LIMIT BUY is covered
(1000000 ≥ 50 × 10000) and its pass does not exit through the cash-short
break. -/
theorem fresh_limit_buy_no_cash_abort_witness :
    demo_buy.side = OrderSide.BUY ∧ demo_buy.order_type = OrderType.LIMIT ∧
    demo_buy.price = some 10000 ∧ (0:Int) < 10000 ∧
    findAccount demo_state.accounts demo_buy.account_id = some demo_buyer ∧
    demo_buy.remaining_quantity * 10000 ≤ demo_buyer.cash_balance ∧
    match_order demo_state demo_buy =
      some (demo_limit_state, demo_limit_order, demo_limit_trades, demo_limit_exit) ∧
    demo_limit_exit ≠ ExitReason.cashShort := by
  refine ⟨rfl, rfl, rfl, by decide, by with_unfolding_all rfl,
    by with_unfolding_all decide, by with_unfolding_all rfl, ?_⟩
  exact fresh_limit_buy_no_cash_abort demo_state demo_buy demo_limit_state
    demo_limit_order demo_limit_trades demo_limit_exit 10000 demo_buyer rfl rfl rfl
    (by decide) (by with_unfolding_all rfl) (by with_unfolding_all decide)
    (by with_unfolding_all decide) (by with_unfolding_all rfl)

end OTP
